import Mathlib

/-!
Verification of the Taker-side coinswap protocol engine
(src/taker_protocol.rs, src/util.rs, src/error.rs) against its
natural-language specification.

The embedding is shallow: the pure decision cores of the Rust functions are
translated into executable Lean definitions.  External collaborators that the
spec declares out of scope (contract primitives from the contracts module,
wallet key derivation from the wallet module) are abstracted into the
parameter record `ContractPrimitives`; everything else is translated directly
from the source.  Machine integers (u64, u16, i32) are modelled as Nat / Int
with explicit `% 2^w` wrapping at the operations the source performs.
-/

/-- The project-wide error enum from src/error.rs.  Payloads of the non
`Protocol` variants are irrelevant to the verified properties and are
dropped; `Protocol` carries its static message string. -/
inductive TeleportError where
  | Network : TeleportError
  | Disk : TeleportError
  | Protocol : String → TeleportError
  | Rpc : TeleportError
  | Socks : TeleportError
deriving DecidableEq, Repr

/-- A transaction outpoint (txid, vout), txids abstracted to Nat. -/
structure OutPoint where
  txid : Nat
  vout : Nat
deriving DecidableEq, Repr

/-- A transaction output: scriptPubKey (abstracted to Nat) and value in sats. -/
structure TxOut where
  spk : Nat
  value : Nat
deriving DecidableEq, Repr

/-- A bitcoin transaction, reduced to the parts the taker core inspects:
its inputs' previous outpoints and its outputs. -/
structure Tx where
  inputs : List OutPoint
  outputs : List TxOut
deriving DecidableEq, Repr

/-- Modelled from the spec: the interface of the out-of-scope collaborators
(contract primitives and wallet key derivation, spec sections 1 and 4.3).
The taker core only ever calls these functions; their internals live in
modules that are not part of the verified source.  All theorems quantify
over this record, so nothing proved depends on a particular choice. -/
structure ContractPrimitives where
  /-- RIPEMD160(SHA256(preimage)), the 160-bit hash binding all contracts. -/
  hash160 : Nat → Nat
  /-- The P2WSH scriptPubKey paying to a witness script. -/
  p2wsh : Nat → Nat
  /-- Derive the public key of a secret key. -/
  privToPub : Nat → Nat
  /-- calculate_coinswap_fee(absolute_fee_sat, amount_relative_fee_ppb,
  time_relative_fee_ppb, amount, time_in_blocks). -/
  calculateCoinswapFee : Nat → Nat → Nat → Nat → Nat → Nat
  /-- The constant MAKER_FUNDING_TX_VBYTE_SIZE from the contracts module. -/
  makerFundingTxVbyteSize : Nat
  /-- validate_contract_tx(tx, expected_previous_outpoint, redeemscript):
  true when the contract tx is structurally valid, spends the outpoint and
  pays to the P2WSH of the redeemscript. -/
  validateContractTx : Tx → Option OutPoint → Nat → Bool
  /-- create_contract_redeemscript(hashlock_pubkey, timelock_pubkey,
  hashvalue, locktime). -/
  createContractRedeemscript : Nat → Nat → Nat → Nat → Nat
  /-- get_tx_out_proof(txid, blockhash): the merkle inclusion proof bytes. -/
  getTxOutProof : Nat → Nat → Nat

/-- u64 modulus. -/
def U64MOD : Nat := 2 ^ 64

/-- Wrapping u64 addition (release-mode Rust semantics). -/
def u64add (a b : Nat) : Nat := (a + b) % U64MOD

/-- Wrapping u64 subtraction (release-mode Rust semantics). -/
def u64sub (a b : Nat) : Nat := (a % U64MOD + U64MOD - b % U64MOD) % U64MOD

/-- Wrapping u64 multiplication (release-mode Rust semantics). -/
def u64mul (a b : Nat) : Nat := (a * b) % U64MOD

/-- The `.iter().sum::<u64>()` of a list of u64 values. -/
def u64sum (l : List Nat) : Nat := l.foldl u64add 0

/-- Offer fields consulted by the taker core (src/taker_protocol.rs uses
min_size, max_size, required_confirms, the fee schedule and the tweakable
point of offerbook_sync::Offer). -/
structure Offer where
  min_size : Nat
  max_size : Nat
  required_confirms : Int
  absolute_fee_sat : Nat
  amount_relative_fee_ppb : Nat
  time_relative_fee_ppb : Nat
  tweakable_point : Nat
deriving DecidableEq, Repr

/-- An offer together with its maker's network address (address abstracted). -/
structure OfferAndAddress where
  offer : Offer
  address : Nat
deriving DecidableEq, Repr

/-- SwapParams from src/taker_protocol.rs lines 119-131. -/
structure SwapParams where
  send_amount : Nat
  maker_count : Nat
  tx_count : Nat
  required_confirms : Int
  fee_rate : Nat
deriving DecidableEq, Repr

/-- The ephemeral OfferBook (src/taker_protocol.rs lines 136-141).  The three
BTreeSets are modelled as duplicate-free lists in ascending iteration order;
all operations below preserve that reading. -/
structure OfferBook where
  all_makers : List OfferAndAddress
  good_makers : List OfferAndAddress
  bad_makers : List OfferAndAddress
deriving DecidableEq, Repr

/-- OfferBook::get_all_untried (lines 144-150): all \ (bad ∪ good), iterated
in the order of all_makers, exactly as BTreeSet::difference iterates the
left-hand set. -/
def OfferBook.get_all_untried (book : OfferBook) : List OfferAndAddress :=
  book.all_makers.filter
    (fun oa => decide (oa ∉ book.bad_makers ∧ oa ∉ book.good_makers))

/-- BTreeSet::insert, on the list model: add the element when absent. -/
def setInsert (l : List OfferAndAddress) (oa : OfferAndAddress) :
    List OfferAndAddress :=
  if oa ∈ l then l else l ++ [oa]

/-- OfferBook::add_new_offer (lines 152-154). -/
def OfferBook.add_new_offer (book : OfferBook) (oa : OfferAndAddress) :
    OfferBook :=
  { book with all_makers := setInsert book.all_makers oa }

/-- OfferBook::add_good_maker (lines 156-158). -/
def OfferBook.add_good_maker (book : OfferBook) (oa : OfferAndAddress) :
    OfferBook :=
  { book with good_makers := setInsert book.good_makers oa }

/-- OfferBook::add_bad_maker (lines 160-162). -/
def OfferBook.add_bad_maker (book : OfferBook) (oa : OfferAndAddress) :
    OfferBook :=
  { book with bad_makers := setInsert book.bad_makers oa }

/-- Taker::choose_next_maker (src/taker_protocol.rs lines 1485-1500):
reject a zero send amount, otherwise return the first untried offer whose
open range (min_size, max_size) strictly contains the amount. -/
def choose_next_maker (book : OfferBook) (send_amount : Nat) :
    Except TeleportError OfferAndAddress :=
  if send_amount = 0 then
    .error (.Protocol "Coinswap send amount not set!!")
  else
    match book.get_all_untried.find?
        (fun oa => decide (send_amount > oa.offer.min_size ∧
                           send_amount < oa.offer.max_size)) with
    | some oa => .ok oa
    | none => .error (.Protocol
        "Could not find suitable maker matching requirements of swap parameters")

/-- The initial OfferBook built by Taker::init (lines 234-246): every synced
offer is added via add_new_offer; good and bad start empty. -/
def initBook (offers : List OfferAndAddress) : OfferBook :=
  offers.foldl OfferBook.add_new_offer ⟨[], [], []⟩

/-- The two OfferBook mutations the swap round performs after initialization.
In the source, add_good_maker and add_bad_maker are only ever invoked on a
maker freshly returned by choose_next_maker (init_first_hop lines 385 and
397, send_sigs_init_next_hop_once lines 881 and 885), hence on a member of
get_all_untried.  A maker is marked good exactly in the branch where
req_sigs_for_sender returned Ok, i.e. the maker delivered contract
signatures that passed the count and verification checks of
req_sigs_for_sender_once (src/util.rs lines 183-195); the environment
verdict `sigOk` records which makers would pass those checks. -/
inductive BookStep (sigOk : OfferAndAddress → Bool) : OfferBook → OfferBook → Prop where
  | markGood (b : OfferBook) (oa : OfferAndAddress)
      (hmem : oa ∈ b.get_all_untried) (hsig : sigOk oa = true) :
      BookStep sigOk b (b.add_good_maker oa)
  | markBad (b : OfferBook) (oa : OfferAndAddress)
      (hmem : oa ∈ b.get_all_untried) :
      BookStep sigOk b (b.add_bad_maker oa)

/-- OfferBook states reachable during a swap round: start from an initialized
book and apply the mutations of the round. -/
inductive BookReachable (sigOk : OfferAndAddress → Bool) : OfferBook → Prop where
  | start (offers : List OfferAndAddress) : BookReachable sigOk (initBook offers)
  | next (b c : OfferBook) (hr : BookReachable sigOk b)
      (hs : BookStep sigOk b c) : BookReachable sigOk c

/-- TakerPosition (src/taker_protocol.rs lines 166-175). -/
inductive TakerPosition where
  | FirstPeer : TakerPosition
  | WatchOnly : TakerPosition
  | LastPeer : TakerPosition
deriving DecidableEq, Repr

/-- The role assignment at loop index maker_index of send_coinswap
(lines 264-271). -/
def takerPositionAt (maker_count maker_index : Nat) : TakerPosition :=
  if maker_index = 0 then .FirstPeer
  else if maker_index = maker_count - 1 then .LastPeer
  else .WatchOnly

/-- One entry of ContractSigsAsRecvrAndSender.senders_contract_txs_info
(the maker's proposed next-hop sending contract, spec section 6.1). -/
structure ContractTxInfoForSender where
  contract_tx : Tx
  timelock_pubkey : Nat
  multisig_redeemscript : Nat
  funding_amount : Nat
deriving DecidableEq, Repr

/-- The maker's ReqContractSigsAsRecvrAndSender reply message. -/
structure ContractSigsAsRecvrAndSender where
  receivers_contract_txs : List Tx
  senders_contract_txs_info : List ContractTxInfoForSender
deriving DecidableEq, Repr

/-- One FundingTxInfo entry of a ProofOfFunding message (spec section 6.1). -/
structure FundingTxInfo where
  funding_tx : Tx
  funding_tx_merkleproof : Nat
  multisig_redeemscript : Nat
  multisig_nonce : Nat
  contract_redeemscript : Nat
  hashlock_nonce : Nat
deriving DecidableEq, Repr

/-- WatchOnlySwapCoin, with the fields WatchOnlySwapCoin::new receives
(src/taker_protocol.rs lines 981-987). -/
structure WatchOnlySwapCoin where
  multisig_redeemscript : Nat
  multisig_pubkey : Nat
  contract_tx : Tx
  contract_redeemscript : Nat
  funding_amount : Nat
deriving DecidableEq, Repr

/-- OutgoingSwapCoin, reduced to the fields the taker core reads. -/
structure OutgoingSwapCoin where
  multisig_redeemscript : Nat
  contract_tx : Tx
  my_privkey : Nat
deriving DecidableEq, Repr

/-- IncomingSwapCoin, reduced to the fields settlement reads and writes. -/
structure IncomingSwapCoin where
  multisig_redeemscript : Nat
  other_pubkey : Nat
  other_privkey : Option Nat
  contract_tx : Tx
deriving DecidableEq, Repr

/-- A PrivKeyHandover entry (spec section 6.1). -/
structure MultisigPrivkey where
  multisig_redeemscript : Nat
  key : Nat
deriving DecidableEq, Repr

/-- NextPeerInfo (lines 206-213), reduced to the peer record the watch loop
and settlement consult. -/
structure NextPeerInfo where
  peer : OfferAndAddress
deriving DecidableEq, Repr

/-- Taker::create_watch_only_swapcoins (lines 968-999): zip the maker's
senders_contract_txs_info with the freshly derived next-peer multisig
pubkeys and the next-hop contract redeemscripts. -/
def create_watch_only_swapcoins (infos : List ContractTxInfoForSender)
    (next_peer_multisig_pubkeys : List Nat)
    (next_swap_contract_redeemscripts : List Nat) : List WatchOnlySwapCoin :=
  (infos.zip (next_peer_multisig_pubkeys.zip next_swap_contract_redeemscripts)).map
    (fun p => ⟨p.1.multisig_redeemscript, p.2.1, p.1.contract_tx, p.2.2,
               p.1.funding_amount⟩)

/-- The OngoingSwapState fields that evolve over the hop loop of
send_coinswap (lines 183-203), plus two ghost lists recording the refund
locktime and the hash value each completed loop hop used for its next-hop
contracts. -/
structure HopState where
  preimage : Nat
  outgoing_swapcoins : List OutgoingSwapCoin
  watchonly_swapcoins : List (List WatchOnlySwapCoin)
  peer_infos : List NextPeerInfo
  funding_txs : List (List Tx × List Nat)
  taker_position : TakerPosition
  hopsCompleted : Nat
  hopLocktimes : List Nat
  hopHashvals : List Nat
deriving DecidableEq, Repr

/-- The environment of one swap round: the maker replies and chain data each
hop consumes.  Functions are indexed by the loop index. -/
structure HopEnv where
  senderTxInfos : Nat → List ContractTxInfoForSender
  nextMaker : Nat → OfferAndAddress
  pubkeyAt : Nat → Nat → Nat
  hashlockPubkeyAt : Nat → Nat → Nat
  fundingTxsAt : Nat → List Tx × List Nat
  firstMaker : OfferAndAddress
  outgoing : Nat → OutgoingSwapCoin
  initFundingTxs : List Tx × List Nat

/-- The swap state right after init_first_hop (lines 338-451) committed:
tx_count outgoing swapcoins and the hop-0 funding txs are stored, the first
maker's peer info is pushed, no watch-only coins exist yet. -/
def initialHopState (env : HopEnv) (tx_count : Nat) (preimage : Nat) : HopState :=
  { preimage := preimage
    outgoing_swapcoins := (List.range tx_count).map env.outgoing
    watchonly_swapcoins := []
    peer_infos := [⟨env.firstMaker⟩]
    funding_txs := [env.initFundingTxs]
    taker_position := .FirstPeer
    hopsCompleted := 1
    hopLocktimes := []
    hopHashvals := [] }

/-- The u16 refund locktime computed for loop index maker_index
(send_coinswap lines 273-276), with u16 wrapping made explicit. -/
def makerRefundLocktimeAt (refund_locktime refund_locktime_step : Nat)
    (maker_count maker_index : Nat) : Nat :=
  (refund_locktime + refund_locktime_step * (maker_count - maker_index - 1)) % 2 ^ 16

/-- One successful iteration of the hop loop of send_coinswap
(lines 264-325), restricted to its state mutations: the role is assigned,
the per-hop refund locktime is computed, the maker's
senders_contract_txs_info reply is length-checked against tx_count (the
check of send_proof_of_funding_and_init_next_hop, src/util.rs lines
302-310), next-hop pubkeys and contract redeemscripts are derived, a
watch-only swapcoin list is pushed unless the taker is the last peer
(lines 894-896), and the peer info and confirmed funding txs are appended.
The hash value used for the next-hop redeemscripts is
get_preimage_hash() = hash160(active_preimage) (lines 1508-1510). -/
def hopStep (E : ContractPrimitives) (refund_locktime refund_locktime_step : Nat)
    (env : HopEnv) (maker_count tx_count : Nat) (maker_index : Nat)
    (st : HopState) : Except TeleportError HopState :=
  let pos := takerPositionAt maker_count maker_index
  let locktime := makerRefundLocktimeAt refund_locktime refund_locktime_step
      maker_count maker_index
  let reply := env.senderTxInfos maker_index
  if reply.length ≠ tx_count then
    .error (.Protocol "wrong number of senders contract txes from maker")
  else
    let hashvalue := E.hash160 st.preimage
    let nextPubkeys := (List.range tx_count).map (env.pubkeyAt maker_index)
    let hashlockPks := (List.range tx_count).map (env.hashlockPubkeyAt maker_index)
    let redeemscripts := List.zipWith
        (fun hpk info => E.createContractRedeemscript hpk info.timelock_pubkey
          hashvalue locktime)
        hashlockPks reply
    let watchonly :=
      if pos = .LastPeer then st.watchonly_swapcoins
      else st.watchonly_swapcoins ++
        [create_watch_only_swapcoins reply nextPubkeys redeemscripts]
    .ok { st with
      taker_position := pos
      watchonly_swapcoins := watchonly
      peer_infos := st.peer_infos ++ [⟨env.nextMaker maker_index⟩]
      funding_txs := st.funding_txs ++ [env.fundingTxsAt maker_index]
      hopsCompleted := st.hopsCompleted + 1
      hopLocktimes := st.hopLocktimes ++ [locktime]
      hopHashvals := st.hopHashvals ++ [hashvalue] }

/-- The state after the first `hops` iterations of the hop loop of
send_coinswap, starting from the post-init_first_hop state. -/
def runHops (E : ContractPrimitives) (refund_locktime refund_locktime_step : Nat)
    (env : HopEnv) (maker_count tx_count : Nat) (preimage : Nat) :
    Nat → Except TeleportError HopState
  | 0 => .ok (initialHopState env tx_count preimage)
  | j + 1 => (runHops E refund_locktime refund_locktime_step env maker_count
      tx_count preimage j).bind
      (hopStep E refund_locktime refund_locktime_step env maker_count tx_count j)

/-- find_funding_output (an out-of-scope contract primitive): the funding
output of a funding tx is the one paying to the P2WSH of the multisig
redeemscript. -/
def find_funding_output (E : ContractPrimitives) (tx : Tx)
    (multisig_redeemscript : Nat) : Option TxOut :=
  tx.outputs.find? (fun o => o.spk == E.p2wsh multisig_redeemscript)

/-- The funding-output values extracted from the incoming funding_tx_infos
(src/util.rs lines 312-324); None when some funding tx lacks its multisig
output, which the source maps to Protocol("multisig redeemscript not found
in funding tx"). -/
def fundingTxValues (E : ContractPrimitives) (infos : List FundingTxInfo) :
    Option (List Nat) :=
  infos.mapM (fun fi =>
    (find_funding_output E fi.funding_tx fi.multisig_redeemscript).map TxOut.value)

/-- The validation pass over the maker's receivers_contract_txs
(src/util.rs lines 356-368): each must spend the outpoint of the matching
known contract tx and satisfy validate_contract_tx against the contract
redeemscript of the matching funding_tx_info.  The source indexes
contract_tx.input[0]; the model reads it as head?. -/
def validateReceiversContractTxs (E : ContractPrimitives)
    (receivers_contract_txs : List Tx) (this_maker_contract_txes : List Tx)
    (infos : List FundingTxInfo) : Bool :=
  ((receivers_contract_txs.zip this_maker_contract_txes).zip infos).all
    (fun p => E.validateContractTx p.1.1
      ((p.1.2.inputs.head?).map (fun i => i)) p.2.contract_redeemscript)

/-- The response-processing core of send_proof_of_funding_and_init_next_hop
(src/util.rs lines 283-388): everything the function does after reading the
maker's ReqContractSigsAsRecvrAndSender reply.  u64 arithmetic is wrapping,
as in release-mode Rust. -/
def sendProofOfFundingCore (E : ContractPrimitives) (this_maker : OfferAndAddress)
    (funding_tx_infos : List FundingTxInfo)
    (next_peer_multisig_pubkeys next_peer_hashlock_pubkeys : List Nat)
    (next_maker_refund_locktime : Nat) (next_maker_fee_rate : Nat)
    (this_maker_contract_txes : List Tx) (hashvalue : Nat)
    (reply : ContractSigsAsRecvrAndSender) :
    Except TeleportError (ContractSigsAsRecvrAndSender × List Nat) :=
  if reply.receivers_contract_txs.length ≠ funding_tx_infos.length then
    .error (.Protocol "wrong number of receivers contracts tx from maker")
  else if reply.senders_contract_txs_info.length ≠ next_peer_multisig_pubkeys.length then
    .error (.Protocol "wrong number of senders contract txes from maker")
  else
    match fundingTxValues E funding_tx_infos with
    | none => .error (.Protocol "multisig redeemscript not found in funding tx")
    | some funding_tx_values =>
      if u64sub (u64sub (u64sum funding_tx_values)
            (E.calculateCoinswapFee this_maker.offer.absolute_fee_sat
              this_maker.offer.amount_relative_fee_ppb
              this_maker.offer.time_relative_fee_ppb
              (u64sum funding_tx_values) 1))
          (u64mul (u64mul E.makerFundingTxVbyteSize next_maker_fee_rate)
            next_peer_multisig_pubkeys.length / 1000) ≠
          u64sum (reply.senders_contract_txs_info.map
            ContractTxInfoForSender.funding_amount) then
        .error (.Protocol "next_amount incorrect")
      else if ¬ validateReceiversContractTxs E reply.receivers_contract_txs
          this_maker_contract_txes funding_tx_infos then
        .error (.Protocol "bad contract tx")
      else
        .ok (reply, List.zipWith
          (fun hpk info => E.createContractRedeemscript hpk info.timelock_pubkey
            hashvalue next_maker_refund_locktime)
          next_peer_hashlock_pubkeys reply.senders_contract_txs_info)

/-- The constants of src/taker_protocol.rs lines 57-79 bundled as
TakerConfig (lines 83-112).  Durations are in the units the source uses
(blocks for locktimes, seconds for delays and timeouts). -/
structure TakerConfig where
  refund_locktime : Nat
  refund_locktime_step : Nat
  first_connect_attempts : Nat
  first_connect_sleep_delay_sec : Nat
  first_connect_attempt_timeout_sec : Nat
  reconnect_attempts : Nat
  reconnect_short_sleep_delay : Nat
  reconnect_long_sleep_delay : Nat
  short_long_sleep_delay_transition : Nat
  reconnect_attempt_timeout_sec : Nat
deriving DecidableEq, Repr

/-- TakerConfig::default (lines 98-112): REFUND_LOCKTIME 48,
REFUND_LOCKTIME_STEP 48, FIRST_CONNECT_ATTEMPTS 5,
FIRST_CONNECT_SLEEP_DELAY_SEC 1, FIRST_CONNECT_ATTEMPT_TIMEOUT_SEC 20,
RECONNECT_ATTEMPTS 3200, RECONNECT_SHORT_SLEEP_DELAY_SEC 10,
RECONNECT_LONG_SLEEP_DELAY_SEC 60, SHORT_LONG_SLEEP_DELAY_TRANSITION 60,
RECONNECT_ATTEMPT_TIMEOUT_SEC 300. -/
def TakerConfig.default : TakerConfig :=
  ⟨48, 48, 5, 1, 20, 3200, 10, 60, 60, 300⟩

/-- What one attempt of a retried operation can produce inside the select!
race of the retry envelopes: the operation resolves first with Ok or Err,
or the per-attempt timeout fires first. -/
inductive AttemptOutcome (α : Type) where
  | success : α → AttemptOutcome α
  | failure : TeleportError → AttemptOutcome α
  | timedOut : AttemptOutcome α
deriving DecidableEq, Repr

/-- The observable trace of one run of a retry envelope: how many attempts
were started, the sleep delays performed between attempts, and the final
result. -/
structure EnvelopeTrace (α : Type) where
  attemptsMade : Nat
  delays : List Nat
  result : Except TeleportError α
deriving Repr

/-- The retry envelope shared by Taker::req_sigs_for_sender (lines
1201-1243), Taker::req_sigs_for_recvr (lines 1256-1303),
Taker::send_sigs_init_next_hop (lines 684-731) and the settle loop (lines
1363-1410): a counter `ii` is pre-incremented, the attempt races its
per-attempt timeout, and on either failure arm the envelope retries while
`ii <= maxAttempts`, sleeping `delayAfter ii` seconds after a failed (not
timed-out) attempt.  `outcomes i` is the outcome of the i-th attempt
(1-based); `timeoutErr` is the Protocol error returned when the envelope is
exhausted by a per-attempt timeout.  Structural recursion is on explicit
fuel, which `runEnvelope` sets high enough to never run out. -/
def runEnvelopeAux (maxAttempts : Nat) (delayAfter : Nat → Nat)
    (timeoutErr : TeleportError) (outcomes : Nat → AttemptOutcome α) :
    Nat → Nat → List Nat → EnvelopeTrace α
  | 0, ii, delays => ⟨ii - 1, delays, .error timeoutErr⟩
  | fuel + 1, ii, delays =>
    match outcomes ii with
    | .success a => ⟨ii, delays, .ok a⟩
    | .failure e =>
      if ii ≤ maxAttempts then
        runEnvelopeAux maxAttempts delayAfter timeoutErr outcomes fuel (ii + 1)
          (delays ++ [delayAfter ii])
      else ⟨ii, delays, .error e⟩
    | .timedOut =>
      if ii ≤ maxAttempts then
        runEnvelopeAux maxAttempts delayAfter timeoutErr outcomes fuel (ii + 1)
          delays
      else ⟨ii, delays, .error timeoutErr⟩

/-- Run a retry envelope from attempt 1. -/
def runEnvelope (maxAttempts : Nat) (delayAfter : Nat → Nat)
    (timeoutErr : TeleportError) (outcomes : Nat → AttemptOutcome α) :
    EnvelopeTrace α :=
  runEnvelopeAux maxAttempts delayAfter timeoutErr outcomes (maxAttempts + 1) 1 []

/-- The inter-attempt delay of the first-connect envelope
(req_sigs_for_sender line 1222): always first_connect_sleep_delay_sec. -/
def firstConnectDelay (cfg : TakerConfig) (_attempt : Nat) : Nat :=
  cfg.first_connect_sleep_delay_sec

/-- The inter-attempt delay of the reconnect envelopes (lines 703-709,
1275-1281, 1382-1388): the short delay up to and including the transition
attempt, the long delay afterwards. -/
def reconnectDelay (cfg : TakerConfig) (attempt : Nat) : Nat :=
  if attempt ≤ cfg.short_long_sleep_delay_transition then
    cfg.reconnect_short_sleep_delay
  else cfg.reconnect_long_sleep_delay

/-- The first-connect envelope of Taker::req_sigs_for_sender. -/
def reqSigsForSenderEnvelope (cfg : TakerConfig)
    (outcomes : Nat → AttemptOutcome α) : EnvelopeTrace α :=
  runEnvelope cfg.first_connect_attempts (firstConnectDelay cfg)
    (.Protocol "Timed out of request_senders_contract_tx_signatures attempt")
    outcomes

/-- The reconnect envelope of Taker::req_sigs_for_recvr. -/
def reqSigsForRecvrEnvelope (cfg : TakerConfig)
    (outcomes : Nat → AttemptOutcome α) : EnvelopeTrace α :=
  runEnvelope cfg.reconnect_attempts (reconnectDelay cfg)
    (.Protocol "Timed out of request_receivers_contract_tx_signatures attempt")
    outcomes

/-- The result of chain client get_transaction(txid): confirmation count
(i32), the containing block hash, and the transaction itself. -/
structure GetTxResult where
  confirmations : Int
  blockhash : Nat
  txhex : Tx
deriving DecidableEq, Repr

/-- The chain and breach observations of the confirmation watch, indexed by
poll round: rpcAt i txid is the get_transaction reply in round i (none for
a transient lookup failure), breachAt i is whether
check_for_broadcasted_contract_txes finds any watched contract broadcast in
round i, and proofFor txid blockhash is the get_tx_out_proof reply. -/
structure WatchEnv where
  rpcAt : Nat → Nat → Option GetTxResult
  breachAt : Nat → Bool
  proofFor : Nat → Nat → Nat

/-- The required confirmation target of Taker::watch_for_txs (lines
482-494): swap_params.required_confirms when the taker is the last peer,
otherwise the advertised required_confirms of the next maker, read from the
last peer_infos entry.  The source .expect()s a nonempty peer_infos; the
model returns none there. -/
def requiredConfirmations (pos : TakerPosition) (params : SwapParams)
    (peer_infos : List NextPeerInfo) : Option Int :=
  if pos = .LastPeer then some params.required_confirms
  else (peer_infos.getLast?).map (fun pi => pi.peer.offer.required_confirms)

/-- The contract-breach watch set of Taker::watch_for_txs (lines 463-480):
the contract txs of every watch-only swapcoin list, chained with the single
list of outgoing-swapcoin contract txs. -/
def contractsToWatch (watchonly_swapcoins : List (List WatchOnlySwapCoin))
    (outgoing_swapcoins : List OutgoingSwapCoin) : List (List Tx) :=
  watchonly_swapcoins.map (fun l => l.map WatchOnlySwapCoin.contract_tx) ++
    [outgoing_swapcoins.map OutgoingSwapCoin.contract_tx]

/-- One pass of the per-round polling loop body over the funding txids
(lines 501-534): a txid not yet in txid_tx_map is looked up; on transient
failure it is skipped; it is promoted into the map (with its tx and block
hash) exactly when its confirmations reach the required target.  The map is
an association list keyed by txid. -/
def pollRound (rpc : Nat → Option GetTxResult) (required : Int) :
    List Nat → List (Nat × Tx × Nat) → List (Nat × Tx × Nat)
  | [], m => m
  | txid :: rest, m =>
    let m2 :=
      if (m.lookup txid).isSome then m
      else
        match rpc txid with
        | none => m
        | some g =>
          if required ≤ g.confirmations then (txid, g.txhex, g.blockhash) :: m
          else m
    pollRound rpc required rest m2

/-- The outcome of the watch loop: every funding tx confirmed (carrying the
final map as well as the returned txs and merkle proofs), a contract breach
observed (the source returns Ok(None)), or still polling when the fuel ran
out (the source loop has no such case; it polls forever). -/
inductive WatchOutcome where
  | confirmed : List (Nat × Tx × Nat) → List Tx → List Nat → WatchOutcome
  | breach : WatchOutcome
  | running : List (Nat × Tx × Nat) → WatchOutcome
deriving DecidableEq, Repr

/-- The polling loop of Taker::watch_for_txs (lines 500-578), fuel-indexed:
each round polls every funding txid, returns the confirmed txs with one
merkle proof per txid once the map covers all txids, and otherwise checks
contracts_to_watch (when nonempty) for a breach before sleeping into the
next round. -/
def watchLoop (env : WatchEnv) (watched : List (List Tx)) (required : Int)
    (funding_txids : List Nat) :
    Nat → Nat → List (Nat × Tx × Nat) → WatchOutcome
  | 0, _, m => .running m
  | fuel + 1, round, m =>
    let m2 := pollRound (env.rpcAt round) required funding_txids m
    if m2.length = funding_txids.length then
      .confirmed m2
        (funding_txids.map (fun txid => ((m2.lookup txid).getD (⟨[], []⟩, 0)).1))
        (funding_txids.map (fun txid =>
          env.proofFor txid ((m2.lookup txid).getD (⟨[], []⟩, 0)).2))
    else if watched ≠ [] ∧ env.breachAt round then .breach
    else watchLoop env watched required funding_txids fuel (round + 1) m2

/-- Taker::watch_for_txs for a given swap state, from round 0 with an empty
map: the watch set and the confirmation target are derived from the state
exactly as in lines 463-494. -/
def watch_for_txs (env : WatchEnv) (st : HopState) (params : SwapParams)
    (funding_txids : List Nat) (fuel : Nat) : Option WatchOutcome :=
  (requiredConfirmations st.taker_position params st.peer_infos).map
    (fun required => watchLoop env
      (contractsToWatch st.watchonly_swapcoins st.outgoing_swapcoins)
      required funding_txids fuel 0 [])

/-- The tail of Taker::init_first_hop (lines 441-450): the Option returned
by watch_for_txs is unwrapped without checking for None.  The model maps
the panic (unwrap of None on breach, or a never-terminating watch) to none:
no TeleportError value is ever produced on that path. -/
def initFirstHopAfterWatch : WatchOutcome → Option (List Tx × List Nat)
  | .confirmed _ txs proofs => some (txs, proofs)
  | .breach => none
  | .running _ => none

/-- Modelled from the spec: IncomingSwapCoin::apply_privkey (wallet module,
not under src; spec invariant 5): the revealed key is accepted and stored
as other_privkey exactly when privkey_to_pubkey(key) equals the swapcoin's
known other multisig pubkey. -/
def applyPrivkeyIncoming (E : ContractPrimitives) (c : IncomingSwapCoin)
    (key : Nat) : Except Unit IncomingSwapCoin :=
  if E.privToPub key = c.other_pubkey then
    .ok { c with other_privkey := some key }
  else .error ()

/-- check_and_apply_maker_private_keys (src/util.rs lines 66-76): iterate
the zip of the swapcoins with the revealed keys, applying each; any
apply_privkey failure is mapped to Protocol("wrong privkey").  The source
mutates in place and returns (); the model returns the updated list. -/
def check_and_apply_maker_private_keys (E : ContractPrimitives) :
    List IncomingSwapCoin → List MultisigPrivkey →
    Except TeleportError (List IncomingSwapCoin)
  | [], _ => .ok []
  | cs, [] => .ok cs
  | c :: cs, k :: ks =>
    match applyPrivkeyIncoming E c k.key with
    | .error _ => .error (.Protocol "wrong privkey")
    | .ok c2 =>
      (check_and_apply_maker_private_keys E cs ks).map (fun rest => c2 :: rest)

/-- The taker_position = LastPeer arm of Taker::settle_one_coinswap (lines
1455-1459) after the PrivKeyHandover reply arrived: the revealed keys are
checked and applied to the incoming swapcoins.  The second component
records every wallet mutation the function performs; settle_one_coinswap
(lines 1416-1480) contains no wallet call, so the list is built from the
(empty) set of wallet-call sites on this path. -/
def settleOneCoinswapLastPeer (E : ContractPrimitives)
    (incoming_swapcoins : List IncomingSwapCoin)
    (multisig_privkeys : List MultisigPrivkey) :
    Except TeleportError (List IncomingSwapCoin) × List Nat :=
  (check_and_apply_maker_private_keys E incoming_swapcoins multisig_privkeys, [])

section Theorems

/-- Membership in the list model of BTreeSet::insert. -/
theorem mem_setInsert (l : List OfferAndAddress) (a x : OfferAndAddress) :
    x ∈ setInsert l a ↔ x ∈ l ∨ x = a := by
  unfold setInsert
  by_cases h : a ∈ l
  · simp only [if_pos h]
    constructor
    · exact Or.inl
    · rintro (hx | rfl)
      · exact hx
      · exact h
  · simp [if_neg h]

/-- Unfolding membership in get_all_untried. -/
theorem mem_get_all_untried (book : OfferBook) (oa : OfferAndAddress) :
    oa ∈ book.get_all_untried ↔
      oa ∈ book.all_makers ∧ oa ∉ book.bad_makers ∧ oa ∉ book.good_makers := by
  unfold OfferBook.get_all_untried
  rw [List.mem_filter]
  simp [and_assoc]

/-- good_makers and bad_makers of an initialized book are empty:
add_new_offer never touches them. -/
theorem initBook_good_bad (offers : List OfferAndAddress) :
    (initBook offers).good_makers = [] ∧ (initBook offers).bad_makers = [] := by
  unfold initBook
  suffices h : ∀ (l : List OfferAndAddress) (b : OfferBook),
      (l.foldl OfferBook.add_new_offer b).good_makers = b.good_makers ∧
      (l.foldl OfferBook.add_new_offer b).bad_makers = b.bad_makers by
    exact h offers ⟨[], [], []⟩
  intro l
  induction l with
  | nil => intro b; exact ⟨rfl, rfl⟩
  | cons a t ih =>
    intro b
    exact ih (b.add_new_offer a)

/-- C8: at every OfferBook state reachable during a swap round, the good and
bad sets are contained in all_makers and are disjoint, and every maker in
good_makers is one whose delivered contract signatures passed the count and
signature-verification checks (the sigOk verdict guarding the mark-good
step). -/
theorem offerbook_reachable_invariant (sigOk : OfferAndAddress → Bool)
    (book : OfferBook) (h : BookReachable sigOk book) :
    (∀ oa ∈ book.good_makers,
        oa ∈ book.all_makers ∧ oa ∉ book.bad_makers ∧ sigOk oa = true) ∧
    (∀ oa ∈ book.bad_makers, oa ∈ book.all_makers) := by
  induction h with
  | start offers =>
    obtain ⟨hg, hb⟩ := initBook_good_bad offers
    constructor
    · intro oa hoa; rw [hg] at hoa; cases hoa
    · intro oa hoa; rw [hb] at hoa; cases hoa
  | next b c _ hs ih =>
    obtain ⟨ihg, ihb⟩ := ih
    cases hs with
    | markGood oa hmem hsig =>
      obtain ⟨hall, hbad, hgood⟩ := (mem_get_all_untried _ oa).mp hmem
      constructor
      · intro x hx
        rcases (mem_setInsert _ _ _).mp hx with hx' | rfl
        · exact ihg x hx'
        · exact ⟨hall, hbad, hsig⟩
      · intro x hx
        exact ihb x hx
    | markBad oa hmem =>
      obtain ⟨hall, hbad, hgood⟩ := (mem_get_all_untried _ oa).mp hmem
      constructor
      · intro x hx
        obtain ⟨hx1, hx2, hx3⟩ := ihg x hx
        refine ⟨hx1, ?_, hx3⟩
        intro hmem2
        rcases (mem_setInsert _ _ _).mp hmem2 with hx' | rfl
        · exact hx2 hx'
        · exact hgood hx
      · intro x hx
        rcases (mem_setInsert _ _ _).mp hx with hx' | rfl
        · exact ihb x hx'
        · exact hall

/-- Witness for C8: the invariant evaluated on a concrete reachable book
(one synced offer, marked good after its signatures verified). -/
theorem offerbook_reachable_invariant_witness :
    (∀ oa ∈ ((initBook [⟨⟨1, 100, 1, 0, 0, 0, 7⟩, 5⟩]).add_good_maker
        ⟨⟨1, 100, 1, 0, 0, 0, 7⟩, 5⟩).good_makers,
      oa ∈ ((initBook [⟨⟨1, 100, 1, 0, 0, 0, 7⟩, 5⟩]).add_good_maker
        ⟨⟨1, 100, 1, 0, 0, 0, 7⟩, 5⟩).all_makers ∧
      oa ∉ ((initBook [⟨⟨1, 100, 1, 0, 0, 0, 7⟩, 5⟩]).add_good_maker
        ⟨⟨1, 100, 1, 0, 0, 0, 7⟩, 5⟩).bad_makers ∧
      (fun _ => true) oa = true) ∧
    (∀ oa ∈ ((initBook [⟨⟨1, 100, 1, 0, 0, 0, 7⟩, 5⟩]).add_good_maker
        ⟨⟨1, 100, 1, 0, 0, 0, 7⟩, 5⟩).bad_makers,
      oa ∈ ((initBook [⟨⟨1, 100, 1, 0, 0, 0, 7⟩, 5⟩]).add_good_maker
        ⟨⟨1, 100, 1, 0, 0, 0, 7⟩, 5⟩).all_makers) :=
  offerbook_reachable_invariant (fun _ => true) _
    (BookReachable.next _ _ (BookReachable.start _)
      (BookStep.markGood _ _ (by decide) rfl))

/-- C2: choose_next_maker rejects a zero send amount immediately (with the
exact Protocol message, independently of the book); a returned offer is
untried and its open range strictly contains the amount, and it is the
first such offer in the book's deterministic iteration order; when no
untried offer matches, the no-suitable-maker Protocol error is returned. -/
theorem choose_next_maker_spec (book : OfferBook) (send_amount : Nat) :
    (send_amount = 0 →
      choose_next_maker book send_amount =
        .error (.Protocol "Coinswap send amount not set!!") ∧
      ∀ book2, choose_next_maker book2 send_amount =
        choose_next_maker book send_amount) ∧
    (∀ oa, choose_next_maker book send_amount = .ok oa →
      oa ∈ book.get_all_untried ∧
      oa.offer.min_size < send_amount ∧ send_amount < oa.offer.max_size ∧
      ∃ pre post, book.get_all_untried = pre ++ oa :: post ∧
        ∀ x ∈ pre,
          ¬(x.offer.min_size < send_amount ∧ send_amount < x.offer.max_size)) ∧
    (send_amount ≠ 0 →
      (∀ oa ∈ book.get_all_untried,
        ¬(oa.offer.min_size < send_amount ∧ send_amount < oa.offer.max_size)) →
      choose_next_maker book send_amount = .error (.Protocol
        "Could not find suitable maker matching requirements of swap parameters")) := by
  refine ⟨?_, ?_, ?_⟩
  · intro h0
    subst h0
    exact ⟨rfl, fun book2 => rfl⟩
  · intro oa hok
    unfold choose_next_maker at hok
    by_cases h0 : send_amount = 0
    · simp [h0] at hok
    · rw [if_neg h0] at hok
      rcases hfind : book.get_all_untried.find?
          (fun oa => decide (send_amount > oa.offer.min_size ∧
                             send_amount < oa.offer.max_size)) with _ | oa2
      · rw [hfind] at hok; cases hok
      · rw [hfind] at hok
        cases hok
        obtain ⟨hp, pre, post, hsplit, hpre⟩ := List.find?_eq_some.mp hfind
        have hbounds := of_decide_eq_true hp
        refine ⟨List.mem_of_find?_eq_some hfind, hbounds.1, hbounds.2,
          pre, post, hsplit, ?_⟩
        intro x hx hcontra
        have := hpre x hx
        rw [Bool.not_eq_true', decide_eq_false_iff_not] at this
        exact this ⟨hcontra.1, hcontra.2⟩
  · intro h0 hnone
    unfold choose_next_maker
    rw [if_neg h0]
    have : book.get_all_untried.find?
        (fun oa => decide (send_amount > oa.offer.min_size ∧
                           send_amount < oa.offer.max_size)) = none := by
      rw [List.find?_eq_none]
      intro a ha
      rw [decide_eq_true_iff]
      intro hcontra
      exact hnone a ha ⟨hcontra.1, hcontra.2⟩
    rw [this]

/-- Witness for C2: the theorem applied at a concrete book and amount; the
zero-amount clause is discharged at amount 0 and the selection clause at a
book whose single untried offer matches amount 50. -/
theorem choose_next_maker_spec_witness :
    choose_next_maker (initBook [⟨⟨1, 100, 1, 0, 0, 0, 7⟩, 5⟩]) 0 =
      .error (.Protocol "Coinswap send amount not set!!") ∧
    (⟨⟨1, 100, 1, 0, 0, 0, 7⟩, 5⟩ : OfferAndAddress) ∈
      (initBook [⟨⟨1, 100, 1, 0, 0, 0, 7⟩, 5⟩]).get_all_untried :=
  ⟨((choose_next_maker_spec (initBook [⟨⟨1, 100, 1, 0, 0, 0, 7⟩, 5⟩]) 0).1 rfl).1,
    ((choose_next_maker_spec (initBook [⟨⟨1, 100, 1, 0, 0, 0, 7⟩, 5⟩]) 50).2.1
      ⟨⟨1, 100, 1, 0, 0, 0, 7⟩, 5⟩ (by rfl)).1⟩

end Theorems

section HopMachine

/-- Inversion of one bind step of runHops. -/
theorem runHops_succ_ok {E : ContractPrimitives} {rl rls : Nat} {env : HopEnv}
    {mc tc p j : Nat} {st : HopState}
    (h : runHops E rl rls env mc tc p (j + 1) = .ok st) :
    ∃ st0, runHops E rl rls env mc tc p j = .ok st0 ∧
      hopStep E rl rls env mc tc j st0 = .ok st := by
  unfold runHops at h
  cases hr : runHops E rl rls env mc tc p j with
  | error e => rw [hr] at h; exact Except.noConfusion h
  | ok st0 => rw [hr] at h; exact ⟨st0, rfl, h⟩

/-- The ghost lists of the hop machine: the preimage never changes over the
hop loop, the recorded locktimes follow the per-hop formula of send_coinswap
lines 273-276 (exact, under the no-u16-overflow bound), and every recorded
hash value is the H160 of the round's single active preimage. -/
theorem runHops_ghost_lists (E : ContractPrimitives) (rl rls : Nat)
    (env : HopEnv) (mc tc p : Nat) :
    ∀ j st, j ≤ mc → rl + rls * (mc - 1) < 2 ^ 16 →
    runHops E rl rls env mc tc p j = .ok st →
    st.preimage = p ∧
    st.hopLocktimes = (List.range j).map (fun h => rl + rls * (mc - h - 1)) ∧
    st.hopHashvals = List.replicate j (E.hash160 p) := by
  intro j
  induction j with
  | zero =>
    intro st _ _ hrun
    unfold runHops at hrun
    cases hrun
    exact ⟨rfl, rfl, rfl⟩
  | succ j ih =>
    intro st hj hov hrun
    obtain ⟨st0, hrun0, hstep⟩ := runHops_succ_ok hrun
    obtain ⟨hp, hl, hh⟩ := ih st0 (Nat.le_of_succ_le hj) hov hrun0
    unfold hopStep at hstep
    by_cases hc : (env.senderTxInfos j).length ≠ tc
    · rw [if_pos hc] at hstep; exact Except.noConfusion hstep
    · rw [if_neg hc] at hstep
      cases hstep
      refine ⟨hp, ?_, ?_⟩
      · show st0.hopLocktimes ++ [makerRefundLocktimeAt rl rls mc j] = _
        have hle : rl + rls * (mc - j - 1) ≤ rl + rls * (mc - 1) := by
          have : mc - (j + 1) ≤ mc - 1 := Nat.sub_le_sub_left (Nat.succ_le_succ (Nat.zero_le j)) mc
          exact Nat.add_le_add_left (Nat.mul_le_mul_left rls this) rl
        have hlt : rl + rls * (mc - j - 1) < 2 ^ 16 := Nat.lt_of_le_of_lt hle hov
        rw [hl, List.range_succ, List.map_append]
        simp only [List.map_cons, List.map_nil]
        rw [makerRefundLocktimeAt, Nat.mod_eq_of_lt hlt]
      · show st0.hopHashvals ++ [E.hash160 st0.preimage] = _
        rw [hh, hp, List.replicate_succ' j (E.hash160 p)]

end HopMachine

/-- C3: over a round with maker_count hops the refund locktime used at hop h
is refund_locktime + refund_locktime_step * (maker_count - h - 1) (taking
the u16 arithmetic below its wrap bound), so with a positive step the
locktime strictly decreases by one step from each hop to the next, while
the hash value used to build every hop's contracts is the constant
H160 of the round's single active preimage. -/
theorem refund_locktime_schedule_and_hash_constancy
    (E : ContractPrimitives) (rl rls : Nat) (env : HopEnv)
    (mc tc p j : Nat) (st : HopState)
    (hj : j ≤ mc) (hov : rl + rls * (mc - 1) < 2 ^ 16)
    (hrun : runHops E rl rls env mc tc p j = .ok st) :
    (∀ h, h < j →
      st.hopLocktimes.getD h 0 = rl + rls * (mc - h - 1)) ∧
    (0 < rls → ∀ h, h + 1 < j →
      st.hopLocktimes.getD (h + 1) 0 < st.hopLocktimes.getD h 0) ∧
    st.hopHashvals = List.replicate j (E.hash160 p) := by
  obtain ⟨hp, hl, hh⟩ := runHops_ghost_lists E rl rls env mc tc p j st hj hov hrun
  have hget : ∀ h, h < j → st.hopLocktimes.getD h 0 = rl + rls * (mc - h - 1) := by
    intro h hh2
    rw [hl, List.getD_eq_getElem?_getD, List.getElem?_map, List.getElem?_range hh2]
    rfl
  refine ⟨hget, ?_, hh⟩
  intro hpos h hlt
  rw [hget (h + 1) hlt, hget h (Nat.lt_of_succ_lt hlt)]
  have hhmc : h + 2 ≤ mc := Nat.le_trans hlt hj
  have h1 : mc - (h + 1) - 1 < mc - h - 1 := by omega
  exact Nat.add_lt_add_left ((Nat.mul_lt_mul_left hpos).mpr h1) rl

/-- A concrete instantiation of the external contract primitives, used only
to evaluate witnesses and counterexamples. -/
def sampleExt : ContractPrimitives :=
  ⟨fun q => q + 1, id, id, fun a b c d e => a + b + c + d + e, 372,
    fun _ _ _ => true, fun a b c d => a + b + c + d, fun a b => a + b⟩

/-- A concrete maker reply entry for witnesses and counterexamples. -/
def sampleSenderInfo : ContractTxInfoForSender :=
  ⟨⟨[⟨0, 0⟩], [⟨0, 500⟩]⟩, 1, 2, 500⟩

/-- A concrete swap-round environment for witnesses and counterexamples. -/
def sampleHopEnv : HopEnv :=
  { senderTxInfos := fun _ => [sampleSenderInfo]
    nextMaker := fun _ => ⟨⟨1, 100, 1, 0, 0, 0, 7⟩, 5⟩
    pubkeyAt := fun _ i => i
    hashlockPubkeyAt := fun _ i => i
    fundingTxsAt := fun _ => ([], [])
    firstMaker := ⟨⟨1, 100, 1, 0, 0, 0, 7⟩, 5⟩
    outgoing := fun i => ⟨i, ⟨[], [⟨3, 400⟩]⟩, i⟩
    initFundingTxs := ([], []) }

/-- Witness for C3: the schedule theorem evaluated on a concrete two-hop
round at its initial state. -/
theorem refund_locktime_schedule_witness :
    (∀ h, h < 0 →
      (initialHopState sampleHopEnv 1 0).hopLocktimes.getD h 0 = 48 + 48 * (2 - h - 1)) ∧
    (0 < 48 → ∀ h, h + 1 < 0 →
      (initialHopState sampleHopEnv 1 0).hopLocktimes.getD (h + 1) 0 <
        (initialHopState sampleHopEnv 1 0).hopLocktimes.getD h 0) ∧
    (initialHopState sampleHopEnv 1 0).hopHashvals =
      List.replicate 0 (sampleExt.hash160 0) :=
  refund_locktime_schedule_and_hash_constancy sampleExt 48 48 sampleHopEnv
    2 1 0 0 (initialHopState sampleHopEnv 1 0) (by decide) (by decide) rfl

/-- Helper: a LastPeer role assignment in a round with at least two makers
happens exactly at the final loop index. -/
theorem takerPositionAt_lastPeer_iff (mc j : Nat) (hmc : 2 ≤ mc) (hj : j < mc) :
    takerPositionAt mc j = .LastPeer ↔ j = mc - 1 := by
  unfold takerPositionAt
  by_cases h0 : j = 0
  · subst h0
    simp only [if_pos rfl]
    constructor
    · intro h; exact TakerPosition.noConfusion h
    · intro h; omega
  · rw [if_neg h0]
    by_cases h1 : j = mc - 1
    · simp [h1]
    · simp [h1]

/-- C9 (amended): after j completed hop exchanges of a round with
maker_count ≥ 2 makers (so hops_committed = j + 1 counting init_first_hop
as hop 0), the number of watch-only swapcoin lists is
min (hops_committed − 1) (maker_count − 1): one list is appended per
completed maker exchange except the final (last-peer) one, and every inner
list has exactly tx_count elements. -/
theorem watchonly_swapcoins_shape (E : ContractPrimitives) (rl rls : Nat)
    (env : HopEnv) (mc tc p : Nat) :
    ∀ j st, 2 ≤ mc → j ≤ mc →
    runHops E rl rls env mc tc p j = .ok st →
    st.hopsCompleted = j + 1 ∧
    st.watchonly_swapcoins.length = min (st.hopsCompleted - 1) (mc - 1) ∧
    ∀ l ∈ st.watchonly_swapcoins, l.length = tc := by
  intro j
  induction j with
  | zero =>
    intro st hmc _ hrun
    unfold runHops at hrun
    cases hrun
    refine ⟨rfl, ?_, ?_⟩
    · show (0 : Nat) = min (1 - 1) (mc - 1)
      simp
    · intro l hl
      exact absurd hl (List.not_mem_nil l)
  | succ j ih =>
    intro st hmc hj hrun
    obtain ⟨st0, hrun0, hstep⟩ := runHops_succ_ok hrun
    obtain ⟨h1, h2, h3⟩ := ih st0 hmc (Nat.le_of_succ_le hj) hrun0
    unfold hopStep at hstep
    by_cases hc : (env.senderTxInfos j).length ≠ tc
    · rw [if_pos hc] at hstep; exact Except.noConfusion hstep
    · rw [if_neg hc] at hstep
      have hlen : (env.senderTxInfos j).length = tc := not_ne_iff.mp hc
      cases hstep
      have hjmc : j < mc := Nat.lt_of_succ_le hj
      have hnewlen :
          (create_watch_only_swapcoins (env.senderTxInfos j)
            ((List.range tc).map (env.pubkeyAt j))
            (List.zipWith
              (fun hpk info => E.createContractRedeemscript hpk
                info.timelock_pubkey (E.hash160 st0.preimage)
                (makerRefundLocktimeAt rl rls mc j))
              ((List.range tc).map (env.hashlockPubkeyAt j))
              (env.senderTxInfos j))).length = tc := by
        unfold create_watch_only_swapcoins
        rw [List.length_map, List.length_zip, List.length_zip,
          List.length_zipWith, List.length_map, List.length_range,
          List.length_map, List.length_range, hlen]
        simp
      rw [h1] at h2
      by_cases hpos : takerPositionAt mc j = .LastPeer
      · have hjeq : j = mc - 1 := (takerPositionAt_lastPeer_iff mc j hmc hjmc).mp hpos
        refine ⟨by rw [h1], ?_, ?_⟩
        · show (if takerPositionAt mc j = .LastPeer then st0.watchonly_swapcoins
            else _).length = _
          rw [if_pos hpos, h2]
          show min (j + 1 - 1) (mc - 1) = min (st0.hopsCompleted + 1 - 1) (mc - 1)
          rw [h1]
          omega
        · show ∀ l ∈ (if takerPositionAt mc j = .LastPeer then
            st0.watchonly_swapcoins else _), l.length = tc
          rw [if_pos hpos]
          exact h3
      · have hjne : j ≠ mc - 1 := fun h =>
          hpos ((takerPositionAt_lastPeer_iff mc j hmc hjmc).mpr h)
        refine ⟨by rw [h1], ?_, ?_⟩
        · show (if takerPositionAt mc j = .LastPeer then st0.watchonly_swapcoins
            else _).length = _
          rw [if_neg hpos, List.length_append, h2]
          show min (j + 1 - 1) (mc - 1) + 1 = min (st0.hopsCompleted + 1 - 1) (mc - 1)
          rw [h1]
          omega
        · show ∀ l ∈ (if takerPositionAt mc j = .LastPeer then
            st0.watchonly_swapcoins else _), l.length = tc
          rw [if_neg hpos]
          intro l hl
          rcases List.mem_append.mp hl with hl | hl
          · exact h3 l hl
          · rw [List.mem_singleton.mp hl]
            exact hnewlen

/-- Witness for C9 (amended): the shape invariant evaluated on the concrete
two-hop round at its initial state. -/
theorem watchonly_swapcoins_shape_witness :
    (initialHopState sampleHopEnv 1 0).hopsCompleted = 0 + 1 ∧
    (initialHopState sampleHopEnv 1 0).watchonly_swapcoins.length =
      min ((initialHopState sampleHopEnv 1 0).hopsCompleted - 1) (2 - 1) ∧
    ∀ l ∈ (initialHopState sampleHopEnv 1 0).watchonly_swapcoins, l.length = 1 :=
  watchonly_swapcoins_shape sampleExt 48 48 sampleHopEnv 2 1 0 0
    (initialHopState sampleHopEnv 1 0) (by decide) (by decide) rfl

/-- Counterexample for C9 as stated: in a concrete two-maker round, after
both maker exchanges complete (hops_committed = 3 counting init_first_hop),
the state holds 1 watch-only list — the first maker exchange, whose role is
FirstPeer, pushed one — but max(0, hops_committed − 1) = 2. -/
theorem watchonly_count_claim_counterexample :
    Except.map (fun st => (st.watchonly_swapcoins.length, st.hopsCompleted))
        (runHops sampleExt 48 48 sampleHopEnv 2 1 0 2) = .ok (1, 3) ∧
    ¬ ((1 : Nat) = max 0 (3 - 1)) := by
  constructor
  · rfl
  · decide

section Envelope

variable {α : Type}

/-- The attempt counter of a retry envelope never exceeds maxAttempts + 1:
the pre-incremented counter is compared with maxAttempts only after the
attempt already ran. -/
theorem runEnvelopeAux_attempts_le (m : Nat) (d : Nat → Nat)
    (te : TeleportError) (out : Nat → AttemptOutcome α) :
    ∀ fuel ii delays, ii ≤ m + 1 →
      (runEnvelopeAux m d te out fuel ii delays).attemptsMade ≤ m + 1 := by
  intro fuel
  induction fuel with
  | zero =>
    intro ii delays hii
    show ii - 1 ≤ m + 1
    omega
  | succ fuel ih =>
    intro ii delays hii
    cases hout : out ii with
    | success a =>
      simp only [runEnvelopeAux, hout]
      exact hii
    | failure e =>
      simp only [runEnvelopeAux, hout]
      by_cases hle : ii ≤ m
      · rw [if_pos hle]
        exact ih (ii + 1) (delays ++ [d ii]) (Nat.succ_le_succ hle)
      · rw [if_neg hle]
        exact hii
    | timedOut =>
      simp only [runEnvelopeAux, hout]
      by_cases hle : ii ≤ m
      · rw [if_pos hle]
        exact ih (ii + 1) delays (Nat.succ_le_succ hle)
      · rw [if_neg hle]
        exact hii

/-- When no attempt in range succeeds, the envelope makes exactly
maxAttempts + 1 attempts and its final result is the last attempt's error
if that attempt failed, and the timeout Protocol error if the last attempt
timed out. -/
theorem runEnvelopeAux_exhaustion (m : Nat) (d : Nat → Nat)
    (te : TeleportError) (out : Nat → AttemptOutcome α) :
    ∀ fuel ii delays, ii + fuel = m + 2 → 1 ≤ ii → ii ≤ m + 1 →
      (∀ i, ii ≤ i → i ≤ m + 1 → ∀ a, out i ≠ .success a) →
      (runEnvelopeAux m d te out fuel ii delays).attemptsMade = m + 1 ∧
      (runEnvelopeAux m d te out fuel ii delays).result =
        (match out (m + 1) with
          | .failure e => .error e
          | _ => .error te) := by
  intro fuel
  induction fuel with
  | zero =>
    intro ii delays hfuel h1 hle _
    omega
  | succ fuel ih =>
    intro ii delays hfuel h1 hle hfail
    cases hout : out ii with
    | success a =>
      exact absurd hout (hfail ii (Nat.le_refl ii) hle a)
    | failure e =>
      simp only [runEnvelopeAux, hout]
      by_cases hm : ii ≤ m
      · rw [if_pos hm]
        exact ih (ii + 1) (delays ++ [d ii]) (by omega) (by omega)
          (by omega) (fun i hi1 hi2 => hfail i (by omega) hi2)
      · rw [if_neg hm]
        have hii : ii = m + 1 := by omega
        subst hii
        rw [hout]
        exact ⟨rfl, rfl⟩
    | timedOut =>
      simp only [runEnvelopeAux, hout]
      by_cases hm : ii ≤ m
      · rw [if_pos hm]
        exact ih (ii + 1) delays (by omega) (by omega) (by omega)
          (fun i hi1 hi2 => hfail i (by omega) hi2)
      · rw [if_neg hm]
        have hii : ii = m + 1 := by omega
        subst hii
        rw [hout]
        exact ⟨rfl, rfl⟩

end Envelope

/-- C4 (amended): the default TakerConfig carries the table's constants
(5/1 s/20 s for the first-connect envelope, 3200/10 s/60 s after attempt
60/300 s for the reconnect envelopes); each envelope attempts its operation
at most maxAttempts + 1 times (6 and 3201 — one more than the configured
maximum, because the counter check happens after the attempt runs); the
inter-attempt delay after failed attempt i is 1 s (first-connect) and 10 s
up to attempt 60 then 60 s (reconnect); when no attempt succeeds, the
envelope ends with the per-attempt-timeout Protocol error if the final
attempt timed out, and with the final attempt's own error if it failed. -/
theorem retry_envelope_attempt_bound_and_exhaustion (α : Type)
    (outF outR : Nat → AttemptOutcome α) :
    TakerConfig.default.first_connect_attempts = 5 ∧
    TakerConfig.default.first_connect_sleep_delay_sec = 1 ∧
    TakerConfig.default.first_connect_attempt_timeout_sec = 20 ∧
    TakerConfig.default.reconnect_attempts = 3200 ∧
    TakerConfig.default.reconnect_short_sleep_delay = 10 ∧
    TakerConfig.default.reconnect_long_sleep_delay = 60 ∧
    TakerConfig.default.short_long_sleep_delay_transition = 60 ∧
    TakerConfig.default.reconnect_attempt_timeout_sec = 300 ∧
    (reqSigsForSenderEnvelope TakerConfig.default outF).attemptsMade ≤ 5 + 1 ∧
    (reqSigsForRecvrEnvelope TakerConfig.default outR).attemptsMade ≤ 3200 + 1 ∧
    (∀ i, firstConnectDelay TakerConfig.default i = 1) ∧
    (∀ i, 1 ≤ i → i ≤ 60 → reconnectDelay TakerConfig.default i = 10) ∧
    (∀ i, 61 ≤ i → reconnectDelay TakerConfig.default i = 60) ∧
    ((∀ i, 1 ≤ i → i ≤ 6 → ∀ a, outF i ≠ .success a) →
      (reqSigsForSenderEnvelope TakerConfig.default outF).attemptsMade = 6 ∧
      (reqSigsForSenderEnvelope TakerConfig.default outF).result =
        (match outF 6 with
          | .failure e => .error e
          | _ => .error (.Protocol
              "Timed out of request_senders_contract_tx_signatures attempt"))) ∧
    ((∀ i, 1 ≤ i → i ≤ 3201 → ∀ a, outR i ≠ .success a) →
      (reqSigsForRecvrEnvelope TakerConfig.default outR).attemptsMade = 3201 ∧
      (reqSigsForRecvrEnvelope TakerConfig.default outR).result =
        (match outR 3201 with
          | .failure e => .error e
          | _ => .error (.Protocol
              "Timed out of request_receivers_contract_tx_signatures attempt"))) := by
  refine ⟨rfl, rfl, rfl, rfl, rfl, rfl, rfl, rfl, ?_, ?_, fun i => rfl, ?_, ?_, ?_, ?_⟩
  · exact runEnvelopeAux_attempts_le 5 _ _ outF 6 1 [] (by omega)
  · exact runEnvelopeAux_attempts_le 3200 _ _ outR 3201 1 [] (by omega)
  · intro i h1 h60
    unfold reconnectDelay
    rw [if_pos (show i ≤ TakerConfig.default.short_long_sleep_delay_transition from h60)]
    rfl
  · intro i h61
    unfold reconnectDelay
    rw [if_neg (show ¬ i ≤ TakerConfig.default.short_long_sleep_delay_transition from
      Nat.not_le.mpr (show (60 : Nat) < i by omega))]
    rfl
  · intro hfail
    exact runEnvelopeAux_exhaustion 5 _ _ outF 6 1 [] (by omega) (by omega)
      (by omega) (fun i hi1 hi2 => hfail i hi1 hi2)
  · intro hfail
    exact runEnvelopeAux_exhaustion 3200 _ _ outR 3201 1 [] (by omega)
      (by omega) (by omega) (fun i hi1 hi2 => hfail i hi1 hi2)

/-- Witness for C4 (amended): the bound and exhaustion law evaluated with
every attempt timing out. -/
theorem retry_envelope_witness :
    (reqSigsForSenderEnvelope TakerConfig.default
      (fun _ => (AttemptOutcome.timedOut : AttemptOutcome Unit))).attemptsMade ≤ 5 + 1 ∧
    (reqSigsForSenderEnvelope TakerConfig.default
      (fun _ => (AttemptOutcome.timedOut : AttemptOutcome Unit))).result =
      .error (.Protocol "Timed out of request_senders_contract_tx_signatures attempt") := by
  have h := retry_envelope_attempt_bound_and_exhaustion Unit
    (fun _ => .timedOut) (fun _ => .timedOut)
  refine ⟨h.2.2.2.2.2.2.2.2.1, ?_⟩
  have h2 := (h.2.2.2.2.2.2.2.2.2.2.2.2.2.1
    (fun i _ _ a hc => AttemptOutcome.noConfusion hc)).2
  exact h2

/-- Counterexample for C4 as stated ("at most 5 attempts" for the
first-connect envelope): with every attempt timing out, the envelope of
req_sigs_for_sender runs 6 attempts, exceeding the configured maximum of 5. -/
theorem retry_envelope_five_attempts_counterexample :
    (reqSigsForSenderEnvelope TakerConfig.default
      (fun _ => (AttemptOutcome.timedOut : AttemptOutcome Unit))).attemptsMade = 6 ∧
    TakerConfig.default.first_connect_attempts = 5 ∧
    ¬ ((6 : Nat) ≤ 5) := ⟨rfl, rfl, by decide⟩

section Settle

/-- Success of check_and_apply_maker_private_keys: every zipped key matched
its swapcoin's other multisig pubkey, and the result is the swapcoins with
those keys applied (trailing unzipped swapcoins unchanged). -/
theorem check_and_apply_ok (E : ContractPrimitives) :
    ∀ (cs : List IncomingSwapCoin) (ks : List MultisigPrivkey) st,
    check_and_apply_maker_private_keys E cs ks = .ok st →
    st = List.zipWith (fun c k =>
        { c with other_privkey := some k.key }) cs ks ++ cs.drop ks.length ∧
    ∀ p ∈ cs.zip ks, E.privToPub p.2.key = p.1.other_pubkey := by
  intro cs
  induction cs with
  | nil =>
    intro ks st h
    cases ks with
    | nil =>
      unfold check_and_apply_maker_private_keys at h
      cases h
      exact ⟨rfl, fun p hp => absurd hp (List.not_mem_nil p)⟩
    | cons k ks =>
      unfold check_and_apply_maker_private_keys at h
      cases h
      exact ⟨rfl, fun p hp => absurd hp (List.not_mem_nil p)⟩
  | cons c cs ih =>
    intro ks st h
    cases ks with
    | nil =>
      unfold check_and_apply_maker_private_keys at h
      cases h
      exact ⟨rfl, fun p hp => absurd hp (List.not_mem_nil p)⟩
    | cons k ks =>
      unfold check_and_apply_maker_private_keys applyPrivkeyIncoming at h
      by_cases hk : E.privToPub k.key = c.other_pubkey
      · rw [if_pos hk] at h
        cases hrest : check_and_apply_maker_private_keys E cs ks with
        | error e =>
          rw [hrest] at h
          exact Except.noConfusion h
        | ok st2 =>
          rw [hrest] at h
          cases h
          obtain ⟨hst2, hall⟩ := ih ks st2 hrest
          constructor
          · rw [hst2]
            rfl
          · intro p hp
            rcases List.mem_cons.mp hp with hp | hp
            · rw [hp]
              exact hk
            · exact hall p hp
      · rw [if_neg hk] at h
        exact Except.noConfusion h

/-- A mismatching key anywhere in the zip makes
check_and_apply_maker_private_keys fail with Protocol("wrong privkey"). -/
theorem check_and_apply_mismatch (E : ContractPrimitives) :
    ∀ (cs : List IncomingSwapCoin) (ks : List MultisigPrivkey),
    (∃ p ∈ cs.zip ks, E.privToPub p.2.key ≠ p.1.other_pubkey) →
    check_and_apply_maker_private_keys E cs ks =
      .error (.Protocol "wrong privkey") := by
  intro cs
  induction cs with
  | nil =>
    rintro ks ⟨p, hp, _⟩
    exact absurd hp (List.not_mem_nil p)
  | cons c cs ih =>
    rintro ks ⟨p, hp, hne⟩
    cases ks with
    | nil => exact absurd hp (List.not_mem_nil p)
    | cons k ks =>
      unfold check_and_apply_maker_private_keys applyPrivkeyIncoming
      by_cases hk : E.privToPub k.key = c.other_pubkey
      · rw [if_pos hk]
        rcases List.mem_cons.mp hp with hp | hp
        · rw [hp] at hne
          exact absurd hk hne
        · rw [ih ks ⟨p, hp, hne⟩]
          rfl
      · rw [if_neg hk]

end Settle

/-- C6: in the LastPeer settlement arm, every revealed maker private key is
applied to its incoming swapcoin only when it corresponds to the known
other multisig pubkey of that swapcoin; a handover containing any
mismatching key makes settle_one_coinswap fail with
Protocol("wrong privkey"); and settle_one_coinswap performs no wallet
write on either outcome. -/
theorem settle_lastpeer_privkey_check (E : ContractPrimitives)
    (coins : List IncomingSwapCoin) (keys : List MultisigPrivkey) :
    (∀ st, (settleOneCoinswapLastPeer E coins keys).1 = .ok st →
      st = List.zipWith (fun c k =>
          { c with other_privkey := some k.key }) coins keys ++
        coins.drop keys.length ∧
      ∀ p ∈ coins.zip keys, E.privToPub p.2.key = p.1.other_pubkey) ∧
    ((∃ p ∈ coins.zip keys, E.privToPub p.2.key ≠ p.1.other_pubkey) →
      (settleOneCoinswapLastPeer E coins keys).1 =
        .error (.Protocol "wrong privkey")) ∧
    (settleOneCoinswapLastPeer E coins keys).2 = [] :=
  ⟨fun st h => check_and_apply_ok E coins keys st h,
   fun h => check_and_apply_mismatch E coins keys h,
   rfl⟩

/-- Witness for C6: the theorem evaluated concretely (privToPub is the
sampleExt identity) on a matching handover, with the success hypothesis
discharged by computation, and on a mismatching handover. -/
theorem settle_lastpeer_privkey_check_witness :
    (([⟨17, 21, some 21, ⟨[], []⟩⟩] : List IncomingSwapCoin) =
      List.zipWith (fun (c : IncomingSwapCoin) (k : MultisigPrivkey) =>
          { c with other_privkey := some k.key })
        [⟨17, 21, none, ⟨[], []⟩⟩] [⟨17, 21⟩] ++
        ([⟨17, 21, none, ⟨[], []⟩⟩] : List IncomingSwapCoin).drop
          ([(⟨17, 21⟩ : MultisigPrivkey)].length) ∧
      ∀ p ∈ ([⟨17, 21, none, ⟨[], []⟩⟩] : List IncomingSwapCoin).zip
        [(⟨17, 21⟩ : MultisigPrivkey)],
        sampleExt.privToPub p.2.key = p.1.other_pubkey) ∧
    (settleOneCoinswapLastPeer sampleExt [⟨17, 22, none, ⟨[], []⟩⟩]
        [⟨17, 21⟩]).1 = .error (.Protocol "wrong privkey") :=
  ⟨(settle_lastpeer_privkey_check sampleExt [⟨17, 21, none, ⟨[], []⟩⟩]
      [⟨17, 21⟩]).1 [⟨17, 21, some 21, ⟨[], []⟩⟩] rfl,
   (settle_lastpeer_privkey_check sampleExt [⟨17, 22, none, ⟨[], []⟩⟩]
      [⟨17, 21⟩]).2.1 ⟨(⟨17, 22, none, ⟨[], []⟩⟩, ⟨17, 21⟩), (by decide), (by decide)⟩⟩

section Watch

/-- Association-list lookup on a cons cell. -/
theorem lookup_cons {β : Type} (t k : Nat) (v : β) (m : List (Nat × β)) :
    ((k, v) :: m).lookup t = if t = k then some v else m.lookup t := by
  by_cases h : t = k
  · subst h; simp [List.lookup]
  · have hb : (t == k) = false := beq_false_of_ne h
    simp [List.lookup, hb, h]

/-- A lookup succeeds exactly when the key occurs in the key column. -/
theorem lookup_isSome_iff {β : Type} (t : Nat) (m : List (Nat × β)) :
    (m.lookup t).isSome ↔ t ∈ m.map Prod.fst := by
  induction m with
  | nil => simp [List.lookup]
  | cons p m ih =>
    obtain ⟨k, v⟩ := p
    rw [lookup_cons]
    by_cases h : t = k
    · simp [h]
    · simp [h, ih]

/-- C5's promotion law at the pollRound level: after one polling pass a txid
is present in txid_tx_map exactly when it was already present, or it is one
of the funding txids, its chain lookup succeeded this round, and its
confirmation count reached the required target. -/
theorem pollRound_lookup (rpc : Nat → Option GetTxResult) (required : Int) :
    ∀ (txids : List Nat) (m : List (Nat × Tx × Nat)) (t : Nat),
    ((pollRound rpc required txids m).lookup t).isSome ↔
      (m.lookup t).isSome ∨
      (t ∈ txids ∧ ∃ g, rpc t = some g ∧ required ≤ g.confirmations) := by
  intro txids
  induction txids with
  | nil =>
    intro m t
    simp [pollRound]
  | cons txid rest ih =>
    intro m t
    by_cases hm : (m.lookup txid).isSome
    · have hstep : pollRound rpc required (txid :: rest) m =
          pollRound rpc required rest m := by
        show pollRound rpc required rest _ = _
        rw [if_pos hm]
      rw [hstep, ih]
      constructor
      · rintro (h | h)
        · exact Or.inl h
        · exact Or.inr ⟨List.mem_cons_of_mem txid h.1, h.2⟩
      · rintro (h | ⟨hmem, hg⟩)
        · exact Or.inl h
        · rcases List.mem_cons.mp hmem with rfl | hmem
          · exact Or.inl hm
          · exact Or.inr ⟨hmem, hg⟩
    · cases hrpc : rpc txid with
      | none =>
        have hstep : pollRound rpc required (txid :: rest) m =
            pollRound rpc required rest m := by
          show pollRound rpc required rest _ = _
          rw [if_neg hm, hrpc]
        rw [hstep, ih]
        constructor
        · rintro (h | h)
          · exact Or.inl h
          · exact Or.inr ⟨List.mem_cons_of_mem txid h.1, h.2⟩
        · rintro (h | ⟨hmem, g, hg, hc⟩)
          · exact Or.inl h
          · rcases List.mem_cons.mp hmem with rfl | hmem
            · rw [hrpc] at hg; exact Option.noConfusion hg
            · exact Or.inr ⟨hmem, g, hg, hc⟩
      | some g =>
        by_cases hc : required ≤ g.confirmations
        · have hstep : pollRound rpc required (txid :: rest) m =
              pollRound rpc required rest ((txid, g.txhex, g.blockhash) :: m) := by
            show pollRound rpc required rest _ = _
            rw [if_neg hm, hrpc]
            show pollRound rpc required rest
              (if required ≤ g.confirmations then _ else m) = _
            rw [if_pos hc]
          rw [hstep, ih]
          by_cases ht : t = txid
          · subst ht
            rw [lookup_cons, if_pos rfl]
            simp only [Option.isSome_some]
            constructor
            · intro _
              exact Or.inr ⟨List.mem_cons_self t rest, g, hrpc, hc⟩
            · intro _
              exact Or.inl trivial
          · rw [lookup_cons, if_neg ht]
            constructor
            · rintro (h | h)
              · exact Or.inl h
              · exact Or.inr ⟨List.mem_cons_of_mem txid h.1, h.2⟩
            · rintro (h | ⟨hmem, hg⟩)
              · exact Or.inl h
              · rcases List.mem_cons.mp hmem with rfl | hmem
                · exact absurd rfl ht
                · exact Or.inr ⟨hmem, hg⟩
        · have hstep : pollRound rpc required (txid :: rest) m =
              pollRound rpc required rest m := by
            show pollRound rpc required rest _ = _
            rw [if_neg hm, hrpc]
            show pollRound rpc required rest
              (if required ≤ g.confirmations then _ else m) = _
            rw [if_neg hc]
          rw [hstep, ih]
          constructor
          · rintro (h | h)
            · exact Or.inl h
            · exact Or.inr ⟨List.mem_cons_of_mem txid h.1, h.2⟩
          · rintro (h | ⟨hmem, g2, hg2, hc2⟩)
            · exact Or.inl h
            · rcases List.mem_cons.mp hmem with rfl | hmem
              · rw [hrpc] at hg2
                cases hg2
                exact absurd hc2 hc
              · exact Or.inr ⟨hmem, g2, hg2, hc2⟩

/-- pollRound only ever adds keys drawn from the polled txids. -/
theorem pollRound_keys_subset (rpc : Nat → Option GetTxResult) (required : Int) :
    ∀ (txids : List Nat) (m : List (Nat × Tx × Nat)) (k : Nat),
    k ∈ (pollRound rpc required txids m).map Prod.fst →
    k ∈ m.map Prod.fst ∨ k ∈ txids := by
  intro txids
  induction txids with
  | nil =>
    intro m k h
    exact Or.inl h
  | cons txid rest ih =>
    intro m k h
    by_cases hm : (m.lookup txid).isSome
    · have hstep : pollRound rpc required (txid :: rest) m =
          pollRound rpc required rest m := by
        show pollRound rpc required rest _ = _
        rw [if_pos hm]
      rw [hstep] at h
      rcases ih m k h with h2 | h2
      · exact Or.inl h2
      · exact Or.inr (List.mem_cons_of_mem txid h2)
    · cases hrpc : rpc txid with
      | none =>
        have hstep : pollRound rpc required (txid :: rest) m =
            pollRound rpc required rest m := by
          show pollRound rpc required rest _ = _
          rw [if_neg hm, hrpc]
        rw [hstep] at h
        rcases ih m k h with h2 | h2
        · exact Or.inl h2
        · exact Or.inr (List.mem_cons_of_mem txid h2)
      | some g =>
        by_cases hc : required ≤ g.confirmations
        · have hstep : pollRound rpc required (txid :: rest) m =
              pollRound rpc required rest ((txid, g.txhex, g.blockhash) :: m) := by
            show pollRound rpc required rest _ = _
            rw [if_neg hm, hrpc]
            show pollRound rpc required rest
              (if required ≤ g.confirmations then _ else m) = _
            rw [if_pos hc]
          rw [hstep] at h
          rcases ih _ k h with h2 | h2
          · rcases List.mem_cons.mp h2 with rfl | h2
            · exact Or.inr (List.mem_cons_self k rest)
            · exact Or.inl h2
          · exact Or.inr (List.mem_cons_of_mem txid h2)
        · have hstep : pollRound rpc required (txid :: rest) m =
              pollRound rpc required rest m := by
            show pollRound rpc required rest _ = _
            rw [if_neg hm, hrpc]
            show pollRound rpc required rest
              (if required ≤ g.confirmations then _ else m) = _
            rw [if_neg hc]
          rw [hstep] at h
          rcases ih m k h with h2 | h2
          · exact Or.inl h2
          · exact Or.inr (List.mem_cons_of_mem txid h2)

/-- pollRound preserves distinctness of the map's keys. -/
theorem pollRound_keys_nodup (rpc : Nat → Option GetTxResult) (required : Int) :
    ∀ (txids : List Nat) (m : List (Nat × Tx × Nat)),
    (m.map Prod.fst).Nodup →
    ((pollRound rpc required txids m).map Prod.fst).Nodup := by
  intro txids
  induction txids with
  | nil =>
    intro m h
    exact h
  | cons txid rest ih =>
    intro m h
    by_cases hm : (m.lookup txid).isSome
    · have hstep : pollRound rpc required (txid :: rest) m =
          pollRound rpc required rest m := by
        show pollRound rpc required rest _ = _
        rw [if_pos hm]
      rw [hstep]
      exact ih m h
    · cases hrpc : rpc txid with
      | none =>
        have hstep : pollRound rpc required (txid :: rest) m =
            pollRound rpc required rest m := by
          show pollRound rpc required rest _ = _
          rw [if_neg hm, hrpc]
        rw [hstep]
        exact ih m h
      | some g =>
        by_cases hc : required ≤ g.confirmations
        · have hstep : pollRound rpc required (txid :: rest) m =
              pollRound rpc required rest ((txid, g.txhex, g.blockhash) :: m) := by
            show pollRound rpc required rest _ = _
            rw [if_neg hm, hrpc]
            show pollRound rpc required rest
              (if required ≤ g.confirmations then _ else m) = _
            rw [if_pos hc]
          rw [hstep]
          apply ih
          rw [List.map_cons]
          refine List.nodup_cons.mpr ⟨?_, h⟩
          intro hmem
          exact hm ((lookup_isSome_iff txid m).mpr hmem)
        · have hstep : pollRound rpc required (txid :: rest) m =
              pollRound rpc required rest m := by
            show pollRound rpc required rest _ = _
            rw [if_neg hm, hrpc]
            show pollRound rpc required rest
              (if required ≤ g.confirmations then _ else m) = _
            rw [if_neg hc]
          rw [hstep]
          exact ih m h

/-- When the fuel-indexed watch loop returns Confirmed, the returned
transaction and merkle-proof lists have one entry per funding txid and
every (distinct) funding txid was promoted into the final map. -/
theorem watchLoop_confirmed (env : WatchEnv) (watched : List (List Tx))
    (required : Int) (txids : List Nat) :
    ∀ fuel round m, (m.map Prod.fst).Nodup →
      (∀ k ∈ m.map Prod.fst, k ∈ txids) →
      ∀ mfin txs proofs,
      watchLoop env watched required txids fuel round m =
        .confirmed mfin txs proofs →
      txs.length = txids.length ∧ proofs.length = txids.length ∧
      ∀ t ∈ txids, (mfin.lookup t).isSome := by
  intro fuel
  induction fuel with
  | zero =>
    intro round m _ _ mfin txs proofs h
    exact WatchOutcome.noConfusion h
  | succ fuel ih =>
    intro round m hnodup hsub mfin txs proofs h
    have hstep : watchLoop env watched required txids (fuel + 1) round m =
        (if (pollRound (env.rpcAt round) required txids m).length = txids.length
         then
          .confirmed (pollRound (env.rpcAt round) required txids m)
            (txids.map (fun txid =>
              (((pollRound (env.rpcAt round) required txids m).lookup txid).getD
                (⟨[], []⟩, 0)).1))
            (txids.map (fun txid => env.proofFor txid
              (((pollRound (env.rpcAt round) required txids m).lookup txid).getD
                (⟨[], []⟩, 0)).2))
         else if watched ≠ [] ∧ env.breachAt round then .breach
         else watchLoop env watched required txids fuel (round + 1)
           (pollRound (env.rpcAt round) required txids m)) := rfl
    rw [hstep] at h
    have hnodup2 := pollRound_keys_nodup (env.rpcAt round) required txids m hnodup
    have hsub2 : ∀ k ∈ (pollRound (env.rpcAt round) required txids m).map Prod.fst,
        k ∈ txids := by
      intro k hk
      rcases pollRound_keys_subset (env.rpcAt round) required txids m k hk with h2 | h2
      · exact hsub k h2
      · exact h2
    by_cases hlen : (pollRound (env.rpcAt round) required txids m).length = txids.length
    · rw [if_pos hlen] at h
      cases h
      refine ⟨List.length_map txids _, List.length_map txids _, ?_⟩
      have hkeylen : ((pollRound (env.rpcAt round) required txids m).map Prod.fst).length =
          txids.length := by
        rw [List.length_map]
        exact hlen
      have hperm : ((pollRound (env.rpcAt round) required txids m).map Prod.fst).Perm txids :=
        (List.subperm_of_subset hnodup2 hsub2).perm_of_length_le (le_of_eq hkeylen.symm)
      intro t ht
      exact (lookup_isSome_iff t _).mpr (hperm.mem_iff.mpr ht)
    · rw [if_neg hlen] at h
      by_cases hbr : watched ≠ [] ∧ env.breachAt round
      · rw [if_pos hbr] at h
        exact WatchOutcome.noConfusion h
      · rw [if_neg hbr] at h
        exact ih (round + 1) _ hnodup2 hsub2 mfin txs proofs h

end Watch

/-- C5: the confirmation target of watch_for_txs is swap_params.required_confirms
when taker_position = LastPeer and otherwise the next maker's advertised
required_confirms read from the last peer_infos entry; a funding txid is
promoted into txid_tx_map in a polling pass exactly when its reported
confirmation count reaches that target (or it was already promoted); and a
Confirmed return carries one transaction and one merkle proof per funding
txid and happens only with every funding txid promoted. -/
theorem watch_for_txs_confirmation_spec (env : WatchEnv) (params : SwapParams)
    (st : HopState) (pi2 : NextPeerInfo) (rpc : Nat → Option GetTxResult)
    (required : Int) (txids : List Nat) :
    (st.taker_position = .LastPeer →
      requiredConfirmations st.taker_position params st.peer_infos =
        some params.required_confirms) ∧
    (st.taker_position ≠ .LastPeer → st.peer_infos.getLast? = some pi2 →
      requiredConfirmations st.taker_position params st.peer_infos =
        some pi2.peer.offer.required_confirms) ∧
    (∀ m t, ((pollRound rpc required txids m).lookup t).isSome ↔
      (m.lookup t).isSome ∨
      (t ∈ txids ∧ ∃ g, rpc t = some g ∧ required ≤ g.confirmations)) ∧
    (∀ fuel mfin txs proofs,
      watch_for_txs env st params txids fuel =
        some (.confirmed mfin txs proofs) →
      txs.length = txids.length ∧ proofs.length = txids.length ∧
      ∀ t ∈ txids, (mfin.lookup t).isSome) := by
  refine ⟨?_, ?_, pollRound_lookup rpc required txids, ?_⟩
  · intro hpos
    unfold requiredConfirmations
    rw [if_pos hpos]
  · intro hpos hlast
    unfold requiredConfirmations
    rw [if_neg hpos, hlast]
    rfl
  · intro fuel mfin txs proofs h
    unfold watch_for_txs at h
    rcases hreq : requiredConfirmations st.taker_position params st.peer_infos with
      _ | r
    · rw [hreq] at h
      exact Option.noConfusion h
    · rw [hreq] at h
      have h2 : watchLoop env
          (contractsToWatch st.watchonly_swapcoins st.outgoing_swapcoins)
          r txids fuel 0 [] = .confirmed mfin txs proofs := by
        have := Option.some.inj h
        exact this
      exact watchLoop_confirmed env _ r txids fuel 0 []
        List.nodup_nil (fun k hk => absurd hk (List.not_mem_nil k)) mfin txs proofs h2

/-- A concrete chain view for the C5 witness: every lookup reports one
confirmation. -/
def sampleWatchEnv : WatchEnv :=
  { rpcAt := fun _ _ => some ⟨1, 99, ⟨[], [⟨0, 500⟩]⟩⟩
    breachAt := fun _ => false
    proofFor := fun t b => t + b }

/-- Witness for C5: the theorem evaluated at the concrete post-init state
(taker not last peer, one peer info) watching one funding txid under
sampleWatchEnv, where the loop confirms in the first round. -/
theorem watch_for_txs_confirmation_spec_witness :
    requiredConfirmations (initialHopState sampleHopEnv 1 0).taker_position
      ⟨500, 2, 1, 1, 10⟩ (initialHopState sampleHopEnv 1 0).peer_infos =
      some ((⟨⟨⟨1, 100, 1, 0, 0, 0, 7⟩, 5⟩⟩ : NextPeerInfo).peer.offer.required_confirms) ∧
    (([⟨[], [⟨0, 500⟩]⟩] : List Tx).length = ([42] : List Nat).length ∧
      ([141] : List Nat).length = ([42] : List Nat).length ∧
      ∀ t ∈ ([42] : List Nat),
        (([(42, ⟨[], [⟨0, 500⟩]⟩, 99)] : List (Nat × Tx × Nat)).lookup t).isSome) :=
  ⟨(watch_for_txs_confirmation_spec sampleWatchEnv ⟨500, 2, 1, 1, 10⟩
      (initialHopState sampleHopEnv 1 0) ⟨⟨⟨1, 100, 1, 0, 0, 0, 7⟩, 5⟩⟩
      (fun _ => none) 1 [42]).2.1 (by decide) rfl,
   (watch_for_txs_confirmation_spec sampleWatchEnv ⟨500, 2, 1, 1, 10⟩
      (initialHopState sampleHopEnv 1 0) ⟨⟨⟨1, 100, 1, 0, 0, 0, 7⟩, 5⟩⟩
      (fun _ => none) 1 [42]).2.2.2 1 [(42, ⟨[], [⟨0, 500⟩]⟩, 99)]
      [⟨[], [⟨0, 500⟩]⟩] [141] rfl⟩

section AmountConservation

/-- Folding wrapping u64 addition from an in-range accumulator is the sum
modulo 2^64. -/
theorem u64add_foldl (l : List Nat) :
    ∀ a, a < U64MOD → l.foldl u64add a = (a + l.sum) % U64MOD := by
  induction l with
  | nil =>
    intro a ha
    show a = (a + 0) % U64MOD
    rw [Nat.add_zero, Nat.mod_eq_of_lt ha]
  | cons x l ih =>
    intro a ha
    show l.foldl u64add (u64add a x) = _
    rw [ih (u64add a x) (Nat.mod_lt _ (by decide)), u64add, Nat.mod_add_mod,
      List.sum_cons]
    congr 1
    omega

/-- u64sum of an in-range total is the plain sum. -/
theorem u64sum_eq (l : List Nat) (h : l.sum < U64MOD) : u64sum l = l.sum := by
  rw [u64sum, u64add_foldl l 0 (by decide), Nat.zero_add, Nat.mod_eq_of_lt h]

/-- Wrapping u64 subtraction of an in-range pair with no borrow is the
plain subtraction. -/
theorem u64sub_eq (a b : Nat) (hba : b ≤ a) (ha : a < U64MOD) :
    u64sub a b = a - b := by
  rw [u64sub, Nat.mod_eq_of_lt ha, Nat.mod_eq_of_lt (Nat.lt_of_le_of_lt hba ha)]
  have h1 : a + U64MOD - b = (a - b) + U64MOD := by omega
  rw [h1, Nat.add_mod_right, Nat.mod_eq_of_lt (by omega)]

/-- Wrapping u64 multiplication of an in-range product is the plain product. -/
theorem u64mul_eq (a b : Nat) (h : a * b < U64MOD) : u64mul a b = a * b :=
  Nat.mod_eq_of_lt h

end AmountConservation

/-- C1: within the hop exchange of send_proof_of_funding_and_init_next_hop,
writing this_amount for the sum of the funding-output values of the
incoming funding_tx_infos and next_amount for the sum of funding_amount
over the maker's senders_contract_txs_info, the maker's response is
accepted only if next_amount = this_amount − coinswap_fee −
taker_paid_miner_fee with taker_paid_miner_fee =
MAKER_FUNDING_TX_VBYTE_SIZE × next_fee_rate × tx_count / 1000 (integer
division), and any response violating the equality is rejected with
Protocol("next_amount incorrect").  Hypotheses restrict to responses that
pass the earlier count and funding-output checks and keep the u64
arithmetic below its wrap bound. -/
theorem proof_of_funding_amount_conservation (E : ContractPrimitives)
    (this_maker : OfferAndAddress) (infos : List FundingTxInfo)
    (pubkeys hashlockpks : List Nat) (locktime fee_rate : Nat)
    (ctxs : List Tx) (hashvalue : Nat) (reply : ContractSigsAsRecvrAndSender)
    (vals : List Nat)
    (hr : reply.receivers_contract_txs.length = infos.length)
    (hs : reply.senders_contract_txs_info.length = pubkeys.length)
    (hv : fundingTxValues E infos = some vals)
    (hsum : vals.sum < U64MOD)
    (hnext : (reply.senders_contract_txs_info.map
      ContractTxInfoForSender.funding_amount).sum < U64MOD)
    (hm1 : E.makerFundingTxVbyteSize * fee_rate < U64MOD)
    (hm2 : E.makerFundingTxVbyteSize * fee_rate * pubkeys.length < U64MOD)
    (hfee : E.calculateCoinswapFee this_maker.offer.absolute_fee_sat
        this_maker.offer.amount_relative_fee_ppb
        this_maker.offer.time_relative_fee_ppb vals.sum 1 +
      E.makerFundingTxVbyteSize * fee_rate * pubkeys.length / 1000 ≤ vals.sum) :
    (∀ out, sendProofOfFundingCore E this_maker infos pubkeys hashlockpks
        locktime fee_rate ctxs hashvalue reply = .ok out →
      (reply.senders_contract_txs_info.map
        ContractTxInfoForSender.funding_amount).sum =
        vals.sum -
        E.calculateCoinswapFee this_maker.offer.absolute_fee_sat
          this_maker.offer.amount_relative_fee_ppb
          this_maker.offer.time_relative_fee_ppb vals.sum 1 -
        E.makerFundingTxVbyteSize * fee_rate * pubkeys.length / 1000) ∧
    ((reply.senders_contract_txs_info.map
        ContractTxInfoForSender.funding_amount).sum ≠
        vals.sum -
        E.calculateCoinswapFee this_maker.offer.absolute_fee_sat
          this_maker.offer.amount_relative_fee_ppb
          this_maker.offer.time_relative_fee_ppb vals.sum 1 -
        E.makerFundingTxVbyteSize * fee_rate * pubkeys.length / 1000 →
      sendProofOfFundingCore E this_maker infos pubkeys hashlockpks
        locktime fee_rate ctxs hashvalue reply =
        .error (.Protocol "next_amount incorrect")) := by
  have hthis : u64sum vals = vals.sum := u64sum_eq vals hsum
  have hnexts : u64sum (reply.senders_contract_txs_info.map
      ContractTxInfoForSender.funding_amount) =
      (reply.senders_contract_txs_info.map
        ContractTxInfoForSender.funding_amount).sum :=
    u64sum_eq _ hnext
  have hminer : u64mul (u64mul E.makerFundingTxVbyteSize fee_rate)
      pubkeys.length / 1000 =
      E.makerFundingTxVbyteSize * fee_rate * pubkeys.length / 1000 := by
    rw [u64mul_eq _ _ hm1, u64mul_eq _ _ hm2]
  have hfee1 : E.calculateCoinswapFee this_maker.offer.absolute_fee_sat
      this_maker.offer.amount_relative_fee_ppb
      this_maker.offer.time_relative_fee_ppb vals.sum 1 ≤ vals.sum := by
    omega
  have hsub1 : u64sub (u64sum vals)
      (E.calculateCoinswapFee this_maker.offer.absolute_fee_sat
        this_maker.offer.amount_relative_fee_ppb
        this_maker.offer.time_relative_fee_ppb (u64sum vals) 1) =
      vals.sum -
        E.calculateCoinswapFee this_maker.offer.absolute_fee_sat
          this_maker.offer.amount_relative_fee_ppb
          this_maker.offer.time_relative_fee_ppb vals.sum 1 := by
    rw [hthis]
    exact u64sub_eq _ _ hfee1 hsum
  have hcalc : u64sub (u64sub (u64sum vals)
      (E.calculateCoinswapFee this_maker.offer.absolute_fee_sat
        this_maker.offer.amount_relative_fee_ppb
        this_maker.offer.time_relative_fee_ppb (u64sum vals) 1))
      (u64mul (u64mul E.makerFundingTxVbyteSize fee_rate)
        pubkeys.length / 1000) =
      vals.sum -
        E.calculateCoinswapFee this_maker.offer.absolute_fee_sat
          this_maker.offer.amount_relative_fee_ppb
          this_maker.offer.time_relative_fee_ppb vals.sum 1 -
        E.makerFundingTxVbyteSize * fee_rate * pubkeys.length / 1000 := by
    rw [hsub1, hminer]
    refine u64sub_eq _ _ (by omega) (by omega)
  constructor
  · intro out hok
    unfold sendProofOfFundingCore at hok
    rw [if_neg (not_ne_iff.mpr hr), if_neg (not_ne_iff.mpr hs)] at hok
    split at hok
    · rename_i heq
      rw [heq] at hv
      exact Option.noConfusion hv
    · rename_i vals2 heq
      rw [heq] at hv
      have hveq : vals2 = vals := Option.some.inj hv
      rw [hveq] at hok
      by_cases hcond : u64sub (u64sub (u64sum vals)
            (E.calculateCoinswapFee this_maker.offer.absolute_fee_sat
              this_maker.offer.amount_relative_fee_ppb
              this_maker.offer.time_relative_fee_ppb (u64sum vals) 1))
          (u64mul (u64mul E.makerFundingTxVbyteSize fee_rate)
            pubkeys.length / 1000) ≠
          u64sum (reply.senders_contract_txs_info.map
            ContractTxInfoForSender.funding_amount)
      · rw [if_pos hcond] at hok
        exact Except.noConfusion hok
      · rw [not_ne_iff, hcalc, hnexts] at hcond
        exact hcond.symm
  · intro hne
    unfold sendProofOfFundingCore
    rw [if_neg (not_ne_iff.mpr hr), if_neg (not_ne_iff.mpr hs)]
    split
    · rename_i heq
      rw [heq] at hv
      exact Option.noConfusion hv
    · rename_i vals2 heq
      rw [heq] at hv
      have hveq : vals2 = vals := Option.some.inj hv
      rw [hveq]
      rw [if_pos]
      rw [hcalc, hnexts]
      intro hcontra
      exact hne hcontra.symm

/-- A concrete instantiation of the contract primitives with a constant
coinswap fee of 10 sats and a funding-tx vsize constant of 100, for the
conservation witness. -/
def feeExt : ContractPrimitives :=
  ⟨fun q => q + 1, id, id, fun _ _ _ _ _ => 10, 100, fun _ _ _ => true,
    fun a b c d => a + b + c + d, fun a b => a + b⟩

/-- Witness for C1: a concrete accepted exchange — one funding output of
1000 sats, coinswap fee 10, taker-paid miner fee 100·20·1/1000 = 2, and a
maker reply carrying funding_amount 988 = 1000 − 10 − 2 — run through the
conservation theorem with the success hypothesis discharged by
computation. -/
theorem proof_of_funding_amount_conservation_witness :
    ([(⟨⟨[⟨1, 0⟩], []⟩, 3, 4, 988⟩ : ContractTxInfoForSender)].map
      ContractTxInfoForSender.funding_amount).sum =
      ([1000] : List Nat).sum -
        feeExt.calculateCoinswapFee 0 0 0 ([1000] : List Nat).sum 1 -
        feeExt.makerFundingTxVbyteSize * 20 * ([7] : List Nat).length / 1000 :=
  (proof_of_funding_amount_conservation feeExt ⟨⟨1, 2000, 1, 0, 0, 0, 9⟩, 4⟩
    [⟨⟨[⟨0, 0⟩], [⟨5, 1000⟩]⟩, 0, 5, 0, 6, 0⟩] [7] [8] 50 20
    [⟨[⟨0, 0⟩], []⟩] 0 ⟨[⟨[⟨0, 0⟩], []⟩], [⟨⟨[⟨1, 0⟩], []⟩, 3, 4, 988⟩]⟩
    [1000] rfl rfl rfl (by decide) (by decide) (by decide) (by decide)
    (by decide)).1 _ rfl

/-- C7 evaluated at its failing input: at the hop-0 state right after the
funding broadcast (no watch-only swapcoins yet, one committed outgoing
swapcoin), the contract-breach watch set that watch_for_txs builds (lines
463-480 chain a `once` of the outgoing contract txs) is the singleton list
of the outgoing contract transactions — not empty as init_first_hop's own
comment (lines 441-442) and the spec assume — so breach polling runs during
the hop-0 confirmation wait. -/
theorem hop0_breach_watchset_nonempty :
    contractsToWatch (initialHopState sampleHopEnv 1 0).watchonly_swapcoins
      (initialHopState sampleHopEnv 1 0).outgoing_swapcoins =
      [[⟨[], [⟨3, 400⟩]⟩]] ∧
    contractsToWatch (initialHopState sampleHopEnv 1 0).watchonly_swapcoins
      (initialHopState sampleHopEnv 1 0).outgoing_swapcoins ≠ [] :=
  ⟨rfl, by decide⟩

/-- C10: at the hop-0 confirmation wait the breach-watch set already
contains the outgoing swapcoins' contract transactions; when one of them is
observed broadcast before the funding txs complete, watch_for_txs returns
the breach outcome (the source's Ok(None)), and the unconditional unwrap at
init_first_hop lines 443-444 then has no value — the model's continuation
produces none (the source panics) instead of any TeleportError. -/
theorem init_first_hop_unwrap_panics_on_breach (env : WatchEnv)
    (st : HopState) (params : SwapParams) (txids : List Nat) (r : Int)
    (fuel : Nat)
    (_hwo : st.watchonly_swapcoins = [])
    (hreq : requiredConfirmations st.taker_position params st.peer_infos = some r)
    (hlen : (pollRound (env.rpcAt 0) r txids []).length ≠ txids.length)
    (hbr : env.breachAt 0 = true) :
    st.outgoing_swapcoins.map OutgoingSwapCoin.contract_tx ∈
      contractsToWatch st.watchonly_swapcoins st.outgoing_swapcoins ∧
    watch_for_txs env st params txids (fuel + 1) = some .breach ∧
    (watch_for_txs env st params txids (fuel + 1)).bind
      initFirstHopAfterWatch = none := by
  have hne : contractsToWatch st.watchonly_swapcoins st.outgoing_swapcoins ≠ [] := by
    unfold contractsToWatch
    intro hcontra
    exact List.noConfusion (List.append_eq_nil.mp hcontra).2
  have hloop : watchLoop env
      (contractsToWatch st.watchonly_swapcoins st.outgoing_swapcoins)
      r txids (fuel + 1) 0 [] = .breach := by
    show (if (pollRound (env.rpcAt 0) r txids []).length = txids.length then _
      else if contractsToWatch st.watchonly_swapcoins st.outgoing_swapcoins ≠ [] ∧
          env.breachAt 0 then WatchOutcome.breach
      else watchLoop env
        (contractsToWatch st.watchonly_swapcoins st.outgoing_swapcoins)
        r txids fuel 1 (pollRound (env.rpcAt 0) r txids [])) = WatchOutcome.breach
    rw [if_neg hlen, if_pos ⟨hne, hbr⟩]
  have hwatch : watch_for_txs env st params txids (fuel + 1) = some .breach := by
    unfold watch_for_txs
    rw [hreq]
    show some (watchLoop env
      (contractsToWatch st.watchonly_swapcoins st.outgoing_swapcoins)
      r txids (fuel + 1) 0 []) = some WatchOutcome.breach
    rw [hloop]
  refine ⟨?_, hwatch, ?_⟩
  · unfold contractsToWatch
    exact List.mem_append_right _ (List.mem_singleton.mpr rfl)
  · rw [hwatch]
    rfl

/-- A chain view for the C10 witness: lookups always fail transiently and a
watched contract transaction is observed broadcast in every round. -/
def breachWatchEnv : WatchEnv :=
  { rpcAt := fun _ _ => none
    breachAt := fun _ => true
    proofFor := fun t b => t + b }

/-- Witness for C10: the theorem evaluated at the concrete hop-0 state with
a breach observed in the first polling round. -/
theorem init_first_hop_unwrap_panics_on_breach_witness :
    (initialHopState sampleHopEnv 1 0).outgoing_swapcoins.map
      OutgoingSwapCoin.contract_tx ∈
      contractsToWatch (initialHopState sampleHopEnv 1 0).watchonly_swapcoins
        (initialHopState sampleHopEnv 1 0).outgoing_swapcoins ∧
    watch_for_txs breachWatchEnv (initialHopState sampleHopEnv 1 0)
      ⟨500, 2, 1, 1, 10⟩ [42] 1 = some .breach ∧
    (watch_for_txs breachWatchEnv (initialHopState sampleHopEnv 1 0)
      ⟨500, 2, 1, 1, 10⟩ [42] 1).bind initFirstHopAfterWatch = none :=
  init_first_hop_unwrap_panics_on_breach breachWatchEnv
    (initialHopState sampleHopEnv 1 0) ⟨500, 2, 1, 1, 10⟩ [42] 1 0
    rfl rfl (by decide) rfl
